import Mathlib

/-!
# Bottle simulator: sensor, coordinator handlers, wired system, timer registry

A shallow embedding of `main.go`.

* The `Sensor` record and its accessors are pure functions on a record.
* The two coordinator handlers (`OnEmptyPlaceSensorChanged`,
  `OnFullPlaceSensorChanged`) are small-step machines over the statements of
  their bodies: the guard (lines 77 / 86), the channel operation
  (lines 79 / 88) and the flag write (lines 81 / 90).  A channel operation on
  an unbuffered channel needs a partner, so it is a labelled move that the
  surrounding world has to pair.
* The program wired in `main` is an interleaving transition system: the main
  goroutine, the arrival driver, the removal driver and the three machines of
  `Run`, with a hand-off on an unbuffered channel as one joint step of the
  sender and the receiver.
* The timer registry (`StartTimer`, `KillTimer`, and the goroutine each
  `StartTimer` spawns) is a transition system with a logical clock.  A
  goroutine whose `select` has a ready channel takes its branch before the
  clock moves on.
* The loads and stores of the shared sensor are recorded for every statement
  of the drivers: a getter has a value receiver and copies the whole sensor, a
  setter has a pointer receiver and assigns one field.

Reads and writes of the sensor are atomic steps of the interleaving (the Go
program has no lock around them).  The `fmt.Printf` trace lines have no effect
on the sensor or the channels and are left out.  A callback is named by a
number and its execution is recorded in a log.
-/

namespace BottleSimulator

/-! ## Data model (main.go lines 11-29) -/

/-- Go `type TimerID int`. -/
abbrev TimerID := Int

/-- Go `type Timer struct`.  The callback is named by a number, the duration is in
clock ticks, and `cancel` names the context that the cancel function cancels. -/
structure Timer where
  callback : Nat
  duration : Nat
  cancel : Nat
deriving DecidableEq, Repr

/-- Go `type Sensor struct`.  The Go map is an association list with at most one
entry for each key. -/
structure Sensor where
  emptyPlaceOccupied : Bool
  fullPlaceOccupied : Bool
  timers : List (TimerID × Timer)
deriving DecidableEq, Repr

namespace Sensor

/-- Go `func (s *Sensor) SetEmptyPlaceSensorOccupied(occupied bool)`. -/
def SetEmptyPlaceSensorOccupied (s : Sensor) (occupied : Bool) : Sensor :=
  { s with emptyPlaceOccupied := occupied }

/-- Go `func (s Sensor) GetEmptyPlaceSensorOccupied() bool`. -/
def GetEmptyPlaceSensorOccupied (s : Sensor) : Bool :=
  s.emptyPlaceOccupied

/-- Go `func (s *Sensor) SetFullPlaceSensorOccupied(occupied bool)`. -/
def SetFullPlaceSensorOccupied (s : Sensor) (occupied : Bool) : Sensor :=
  { s with fullPlaceOccupied := occupied }

/-- Go `func (s Sensor) GetFullPlaceSensorOccupied() bool`. -/
def GetFullPlaceSensorOccupied (s : Sensor) : Bool :=
  s.fullPlaceOccupied

end Sensor

/-! ## Coordinator handlers (main.go lines 76-92) -/

/-- The channel operations of the coordinator: a send on `emptyBottles`
(line 79) and a receive from `fullBottles` (line 88). -/
inductive ChanOp where
  | sendEmpty
  | recvFull
deriving DecidableEq, Repr

/-- Control points of a handler body: the `if` guard, the channel operation,
the flag write, and the return. -/
inductive HandlerPc where
  | test
  | comm
  | update
  | ret
deriving DecidableEq, Repr

/-- What a handler does next at a control point: a local move to a new control
point and sensor, a channel operation that has to be paired by a partner and
then continues at a control point, or nothing because it has returned. -/
inductive Move where
  | internal (pc : HandlerPc) (s : Sensor)
  | chan (op : ChanOp) (pc : HandlerPc)
  | halt
deriving DecidableEq, Repr

/-- Go `func (s *MachineSimulator) OnEmptyPlaceSensorChanged()`, lines 76-83. -/
def OnEmptyPlaceSensorChanged : HandlerPc → Sensor → Move
  | .test, s =>
    if s.GetEmptyPlaceSensorOccupied then .internal .comm s else .internal .ret s
  | .comm, _ => .chan .sendEmpty .update
  | .update, s => .internal .ret (s.SetEmptyPlaceSensorOccupied false)
  | .ret, _ => .halt

/-- Go `func (s *MachineSimulator) OnFullPlaceSensorChanged()`, lines 85-92. -/
def OnFullPlaceSensorChanged : HandlerPc → Sensor → Move
  | .test, s =>
    if !s.GetFullPlaceSensorOccupied then .internal .comm s else .internal .ret s
  | .comm, _ => .chan .recvFull .update
  | .update, s => .internal .ret (s.SetFullPlaceSensorOccupied true)
  | .ret, _ => .halt

/-- How a run of a handler ended: it returned, it is blocked at a channel
operation that no partner pairs, or the step budget ran out. -/
inductive Status where
  | returned
  | blocked
  | running
deriving DecidableEq, Repr

/-- A run of one handler invocation on its own: how it ended, the sensor at
the end, the steps taken (the channel operation of the step, if any, with the
control point and sensor the step leads to), and how many partner offers are
left on the channel. -/
structure Outcome where
  status : Status
  sensor : Sensor
  trace : List (Option ChanOp × HandlerPc × Sensor)
  offers : Nat
deriving DecidableEq, Repr

/-- Runs a handler from a control point with nobody else touching the sensor.
`offers` counts the partners ready on the handler's channel: a channel
operation consumes one offer and blocks when there is none. -/
def runHandler (h : HandlerPc → Sensor → Move) :
    Nat → HandlerPc → Sensor → Nat → Outcome
  | 0, _, s, offers => ⟨.running, s, [], offers⟩
  | fuel + 1, pc, s, offers =>
    match h pc s with
    | .halt => ⟨.returned, s, [], offers⟩
    | .internal pc' s' =>
      let r := runHandler h fuel pc' s' offers
      { r with trace := (none, pc', s') :: r.trace }
    | .chan op pc' =>
      match offers with
      | 0 => ⟨.blocked, s, [], 0⟩
      | k + 1 =>
        let r := runHandler h fuel pc' s k
        { r with trace := (some op, pc', s) :: r.trace }

/-- One invocation of a handler: the run from its first statement.  A handler
body has three statements, so four steps reach the return. -/
def invoke (h : HandlerPc → Sensor → Move) (s : Sensor) (offers : Nat) : Outcome :=
  runHandler h 4 .test s offers

/-- The channel operations a run performed, in order. -/
def Outcome.ops (r : Outcome) : List ChanOp :=
  r.trace.filterMap (fun e => e.1)

/-! ## The program wired in `main` (main.go lines 94-158) -/

/-- Control points of the main goroutine: the `go` statement of the arrival
driver (line 128), the `go` statement of the removal driver (line 141), the
loop of `Run` with its counter `i` (line 96), and `wg.Wait()` (line 157). -/
inductive MainPc where
  | spawnArrival
  | spawnRemoval
  | run (i : Nat)
  | wait
deriving DecidableEq, Repr

/-- Control points of the arrival driver: the sleep (line 131), the guard
(line 132), the flag write (line 133), and the handler call (line 134) with
the control point inside the handler. -/
inductive ArrivalPc where
  | sleep
  | guard
  | set
  | call (pc : HandlerPc)
deriving DecidableEq, Repr

/-- Control points of the removal driver: the priming handler call (line 145),
the sleep (line 148), the guard (line 149), the flag write (line 150), and the
handler call of the loop (line 151). -/
inductive RemovalPc where
  | prime (pc : HandlerPc)
  | sleep
  | guard
  | clear
  | call (pc : HandlerPc)
deriving DecidableEq, Repr

/-- Control points of a filling machine: the receive of `for range
s.emptyBottles` (line 98), the sleep of the fill (line 102), and the send on
`fullBottles` (line 104). -/
inductive WorkerPc where
  | recv
  | fill
  | send
deriving DecidableEq, Repr

/-- A filling machine with two history counters: the tokens it has received
from `emptyBottles` and the tokens it has sent on `fullBottles`. -/
structure Worker where
  pc : WorkerPc
  received : Nat
  produced : Nat
deriving DecidableEq, Repr

/-- The number of crates a machine holds: one between its receive and the
completion of its send, none while it waits at the receive. -/
def Worker.holds (w : Worker) : Nat :=
  if w.pc = .recv then 0 else 1

/-- The state of the wired program: the shared sensor of `MachineSimulator`
and the control point of every goroutine.  The two channels are unbuffered and
hold no state of their own.  `arrival` and `removal` are `none` until
the main goroutine has spawned the driver.  `emptySent` counts the sends the
coordinator completed on `emptyBottles`, `fullTaken` the receives it completed
from `fullBottles`. -/
structure System where
  sensor : Sensor
  main : MainPc
  arrival : Option ArrivalPc
  removal : Option RemovalPc
  workers : List Worker
  emptySent : Nat
  fullTaken : Nat
deriving DecidableEq, Repr

/-- The state at the first `go` statement of `main`: both flags false, the
timer registry empty, no goroutine spawned. -/
def System.init : System :=
  ⟨⟨false, false, []⟩, .spawnArrival, none, none, [], 0, 0⟩

/-- A local step of the arrival driver (lines 130-136); `none` where the
driver stands at the send of the handler. -/
def arrivalStep : ArrivalPc → Sensor → Option (ArrivalPc × Sensor)
  | .sleep, s => some (.guard, s)
  | .guard, s =>
    if !s.GetEmptyPlaceSensorOccupied then some (.set, s) else some (.sleep, s)
  | .set, s => some (.call .test, s.SetEmptyPlaceSensorOccupied true)
  | .call pc, s =>
    match OnEmptyPlaceSensorChanged pc s with
    | .internal pc' s' => some (.call pc', s')
    | .chan _ _ => none
    | .halt => some (.sleep, s)

/-- The arrival driver completes a send on `emptyBottles`; `none` unless it
stands at the send. -/
def arrivalSend : ArrivalPc → Sensor → Option ArrivalPc
  | .call pc, s =>
    match OnEmptyPlaceSensorChanged pc s with
    | .chan .sendEmpty pc' => some (.call pc')
    | _ => none
  | _, _ => none

/-- A local step of the removal driver (lines 145-153); `none` where the
driver stands at the receive of the handler. -/
def removalStep : RemovalPc → Sensor → Option (RemovalPc × Sensor)
  | .prime pc, s =>
    match OnFullPlaceSensorChanged pc s with
    | .internal pc' s' => some (.prime pc', s')
    | .chan _ _ => none
    | .halt => some (.sleep, s)
  | .sleep, s => some (.guard, s)
  | .guard, s =>
    if s.GetFullPlaceSensorOccupied then some (.clear, s) else some (.sleep, s)
  | .clear, s => some (.call .test, s.SetFullPlaceSensorOccupied false)
  | .call pc, s =>
    match OnFullPlaceSensorChanged pc s with
    | .internal pc' s' => some (.call pc', s')
    | .chan _ _ => none
    | .halt => some (.sleep, s)

/-- The removal driver completes a receive from `fullBottles`; `none` unless
it stands at the receive. -/
def removalRecv : RemovalPc → Sensor → Option RemovalPc
  | .prime pc, s =>
    match OnFullPlaceSensorChanged pc s with
    | .chan .recvFull pc' => some (.prime pc')
    | _ => none
  | .call pc, s =>
    match OnFullPlaceSensorChanged pc s with
    | .chan .recvFull pc' => some (.call pc')
    | _ => none
  | _, _ => none

/-- A machine completes its receive from `emptyBottles` (line 98). -/
def Worker.receive (w : Worker) : Option Worker :=
  if w.pc = .recv then some { w with pc := .fill, received := w.received + 1 } else none

/-- A machine finishes its fill sleep (line 102). -/
def Worker.finishFill (w : Worker) : Option Worker :=
  if w.pc = .fill then some { w with pc := .send } else none

/-- A machine completes its send on `fullBottles` (line 104). -/
def Worker.deliver (w : Worker) : Option Worker :=
  if w.pc = .send then some { w with pc := .recv, produced := w.produced + 1 } else none

/-- The steps of the wired program: a step of the main goroutine, a local step
of a driver or of machine `i`, a hand-off on `emptyBottles` from the arrival
driver to machine `i`, and a hand-off on `fullBottles` from machine `i` to the
removal driver. -/
inductive Action where
  | main
  | arrival
  | removal
  | worker (i : Nat)
  | handEmpty (i : Nat)
  | handFull (i : Nat)
deriving DecidableEq, Repr

/-- Go `func (s *MachineSimulator) Run()`, lines 94-109, one pass of its loop
`for i := 0; i < 3; i++`: with `i < 3` a machine is spawned at its receive and
the loop goes on with `i + 1`; otherwise `Run` returns and `main` goes on to
`wg.Wait()`. -/
def Run (i : Nat) (σ : System) : System :=
  if i < 3 then
    { σ with main := .run (i + 1), workers := σ.workers ++ [⟨.recv, 0, 0⟩] }
  else { σ with main := .wait }

/-- A step of the main goroutine (lines 111-158): spawn the arrival driver,
spawn the removal driver, run `Run`, then block in `wg.Wait()`. -/
def mainStep (σ : System) : Option System :=
  match σ.main with
  | .spawnArrival => some { σ with main := .spawnRemoval, arrival := some .sleep }
  | .spawnRemoval => some { σ with main := .run 0, removal := some (.prime .test) }
  | .run i => some (Run i σ)
  | .wait => none

/-- One step of the wired program; `none` when the action is not enabled. -/
def step : Action → System → Option System
  | .main, σ => mainStep σ
  | .arrival, σ =>
    match σ.arrival with
    | none => none
    | some pc =>
      match arrivalStep pc σ.sensor with
      | none => none
      | some (pc', s') => some { σ with arrival := some pc', sensor := s' }
  | .removal, σ =>
    match σ.removal with
    | none => none
    | some pc =>
      match removalStep pc σ.sensor with
      | none => none
      | some (pc', s') => some { σ with removal := some pc', sensor := s' }
  | .worker i, σ =>
    match σ.workers[i]? with
    | none => none
    | some w =>
      match w.finishFill with
      | none => none
      | some w' => some { σ with workers := σ.workers.set i w' }
  | .handEmpty i, σ =>
    match σ.arrival, σ.workers[i]? with
    | some pc, some w =>
      match arrivalSend pc σ.sensor, w.receive with
      | some pc', some w' =>
        some { σ with arrival := some pc', workers := σ.workers.set i w',
                      emptySent := σ.emptySent + 1 }
      | _, _ => none
    | _, _ => none
  | .handFull i, σ =>
    match σ.removal, σ.workers[i]? with
    | some pc, some w =>
      match removalRecv pc σ.sensor, w.deliver with
      | some pc', some w' =>
        some { σ with removal := some pc', workers := σ.workers.set i w',
                      fullTaken := σ.fullTaken + 1 }
      | _, _ => none
    | _, _ => none

/-- The states the wired program can reach from its start. -/
inductive Reachable : System → Prop where
  | init : Reachable System.init
  | step {σ σ' : System} (a : Action) :
      Reachable σ → step a σ = some σ' → Reachable σ'

/-- Runs a schedule of actions; `none` when one of them is not enabled. -/
def runActions : List Action → System → Option System
  | [], σ => some σ
  | a :: as, σ =>
    match step a σ with
    | none => none
    | some σ' => runActions as σ'

/-- The number of machines holding a crate. -/
def System.holding (σ : System) : Nat :=
  (σ.workers.map Worker.holds).sum

/-- The tokens received from `emptyBottles`, over all machines. -/
def System.emptyReceived (σ : System) : Nat :=
  (σ.workers.map Worker.received).sum

/-- The tokens sent on `fullBottles`, over all machines. -/
def System.fullProduced (σ : System) : Nat :=
  (σ.workers.map Worker.produced).sum

/-- The arrival driver stands at the send on `emptyBottles`. -/
def ArrivalPc.atSend : ArrivalPc → Bool
  | .call .comm => true
  | _ => false

/-- The removal driver stands at the receive from `fullBottles`. -/
def RemovalPc.atRecv : RemovalPc → Bool
  | .prime .comm => true
  | .call .comm => true
  | _ => false

/-- Every process of the wired program (arrival driver, removal driver, three
machines) stands at a channel operation and no send is matched by a receive
on the same channel. -/
def System.allBlocked (σ : System) : Bool :=
  σ.workers.length == 3 &&
  σ.arrival.any ArrivalPc.atSend &&
  σ.removal.any RemovalPc.atRecv &&
  σ.workers.all (fun w => w.pc != .fill) &&
  !σ.workers.any (fun w => w.pc == .recv) &&
  !σ.workers.any (fun w => w.pc == .send)

/-- No action is enabled. -/
def System.Deadlocked (σ : System) : Prop :=
  ∀ a, step a σ = none

/-- The value the empty-place flag has at each control point of the arrival
driver: true from the write of line 133 until the handler clears it. -/
def arrivalFlag : Option ArrivalPc → Bool
  | some (.call .test) => true
  | some (.call .comm) => true
  | some (.call .update) => true
  | _ => false

/-- The value the full-place flag has at each control point of the removal
driver: false while a handler invocation is on its way to the flag write. -/
def removalFlag : Option RemovalPc → Bool
  | none => false
  | some (.prime .ret) => true
  | some (.prime _) => false
  | some (.call .ret) => true
  | some (.call _) => false
  | some _ => true

/-- Which goroutines exist at each control point of the main goroutine. -/
def spawnedOk (σ : System) : Prop :=
  match σ.main with
  | .spawnArrival => σ.arrival = none ∧ σ.removal = none ∧ σ.workers = []
  | .spawnRemoval => σ.arrival ≠ none ∧ σ.removal = none ∧ σ.workers = []
  | .run i => σ.arrival ≠ none ∧ σ.removal ≠ none ∧ σ.workers.length = i ∧ i ≤ 3
  | .wait => σ.arrival ≠ none ∧ σ.removal ≠ none ∧ σ.workers.length = 3

/-- The invariant of the wired program. -/
structure Inv (σ : System) : Prop where
  emptyFlag : σ.sensor.emptyPlaceOccupied = arrivalFlag σ.arrival
  fullFlag : σ.sensor.fullPlaceOccupied = removalFlag σ.removal
  timers : σ.sensor.timers = []
  spawned : spawnedOk σ
  sent : σ.emptySent = σ.emptyReceived
  taken : σ.fullProduced = σ.fullTaken
  each : ∀ w ∈ σ.workers, w.received = w.produced + w.holds

/-- A schedule of the wired program: the main goroutine spawns both drivers
and the three machines, the arrival driver delivers one crate, and machine 1
takes it. -/
def sampleSchedule : List Action :=
  [.main, .main, .main, .main, .main, .main,
   .arrival, .arrival, .arrival, .arrival, .handEmpty 1]

/-- The state the sample schedule leads to: the arrival driver stands at the
flag write of the handler, machine 1 is filling. -/
def sampleState : System :=
  ⟨⟨true, false, []⟩, .wait, some (.call .update), some (.prime .test),
   [⟨.recv, 0, 0⟩, ⟨.fill, 1, 0⟩, ⟨.recv, 0, 0⟩], 1, 0⟩

/-- A schedule that brings the arrival driver to its guard while the removal
driver is about to evaluate the guard of the priming handler call. -/
def guardSchedule : List Action :=
  [.main, .main, .arrival]

/-- The state the guard schedule leads to. -/
def guardState : System :=
  ⟨⟨false, false, []⟩, .run 0, some .guard, some (.prime .test), [], 0, 0⟩

/-! ## Accesses to the shared sensor and iteration counts -/

/-- The fields of `Sensor`. -/
inductive Field where
  | emptyPlaceOccupied
  | fullPlaceOccupied
  | timers
deriving DecidableEq, Repr

/-- The fields of the shared sensor that a statement loads and stores. -/
structure Access where
  loads : List Field
  stores : List Field
deriving DecidableEq, Repr

/-- A statement that does not touch the sensor. -/
def Access.nothing : Access :=
  ⟨[], []⟩

/-- A call of a method with the value receiver `(s Sensor)` (lines 35 and 43)
copies the sensor into the receiver: every field is loaded. -/
def Access.copyReceiver : Access :=
  ⟨[.emptyPlaceOccupied, .fullPlaceOccupied, .timers], []⟩

/-- The accesses of `GetEmptyPlaceSensorOccupied`, a value-receiver method. -/
def Sensor.accessGetEmpty : Access :=
  Access.copyReceiver

/-- The accesses of `SetEmptyPlaceSensorOccupied`, a pointer-receiver method
that assigns one field. -/
def Sensor.accessSetEmpty : Access :=
  ⟨[], [.emptyPlaceOccupied]⟩

/-- The accesses of `GetFullPlaceSensorOccupied`, a value-receiver method. -/
def Sensor.accessGetFull : Access :=
  Access.copyReceiver

/-- The accesses of `SetFullPlaceSensorOccupied`, a pointer-receiver method
that assigns one field. -/
def Sensor.accessSetFull : Access :=
  ⟨[], [.fullPlaceOccupied]⟩

/-- The accesses of `OnEmptyPlaceSensorChanged` at each control point: the
getter call of line 77 and the setter call of line 81. -/
def accessOnEmpty : HandlerPc → Access
  | .test => Sensor.accessGetEmpty
  | .comm => Access.nothing
  | .update => Sensor.accessSetEmpty
  | .ret => Access.nothing

/-- The accesses of `OnFullPlaceSensorChanged` at each control point: the
getter call of line 86 and the setter call of line 90. -/
def accessOnFull : HandlerPc → Access
  | .test => Sensor.accessGetFull
  | .comm => Access.nothing
  | .update => Sensor.accessSetFull
  | .ret => Access.nothing

/-- The accesses of the arrival driver at each control point: the getter call
of line 132, the setter call of line 133, and the handler. -/
def arrivalAccess : ArrivalPc → Access
  | .sleep => Access.nothing
  | .guard => Sensor.accessGetEmpty
  | .set => Sensor.accessSetEmpty
  | .call pc => accessOnEmpty pc

/-- The accesses of the removal driver at each control point: the getter call
of line 149, the setter call of line 150, and the handler. -/
def removalAccess : RemovalPc → Access
  | .prime pc => accessOnFull pc
  | .sleep => Access.nothing
  | .guard => Sensor.accessGetFull
  | .clear => Sensor.accessSetFull
  | .call pc => accessOnFull pc

/-- The value of a field, for the comparison of two sensors. -/
def Sensor.sameField (s s' : Sensor) : Field → Prop
  | .emptyPlaceOccupied => s'.emptyPlaceOccupied = s.emptyPlaceOccupied
  | .fullPlaceOccupied => s'.fullPlaceOccupied = s.fullPlaceOccupied
  | .timers => s'.timers = s.timers

/-- The number of loop iterations the arrival driver begins along a schedule:
the evaluations of its guard (line 132). -/
def arrivalIterations : List Action → System → Nat
  | [], _ => 0
  | a :: as, σ =>
    match step a σ with
    | none => 0
    | some σ' =>
      (if a = .arrival ∧ σ.arrival = some .guard then 1 else 0) + arrivalIterations as σ'

/-- The number of loop iterations the removal driver begins along a schedule:
the evaluations of its loop guard (line 149). -/
def removalIterations : List Action → System → Nat
  | [], _ => 0
  | a :: as, σ =>
    match step a σ with
    | none => 0
    | some σ' =>
      (if a = .removal ∧ σ.removal = some .guard then 1 else 0) + removalIterations as σ'

/-- The arrival driver has begun an iteration and not yet completed the send
of that iteration: 1 at the flag write and at the guard and the send of the
handler, 0 elsewhere. -/
def arrivalPending : Option ArrivalPc → Nat
  | some .set => 1
  | some (.call .test) => 1
  | some (.call .comm) => 1
  | _ => 0

/-- The removal driver has begun the priming call or an iteration and not yet
completed the receive of it: 1 at the flag write and at the guard and the
receive of the handler, 0 elsewhere. -/
def removalPending : Option RemovalPc → Nat
  | some (.prime .test) => 1
  | some (.prime .comm) => 1
  | some .clear => 1
  | some (.call .test) => 1
  | some (.call .comm) => 1
  | _ => 0

/-- The priming call of the removal driver (line 145): 1 once the driver has
been spawned. -/
def removalPrimed : Option RemovalPc → Nat
  | none => 0
  | some _ => 1

/-- A schedule with one full cycle: everything is spawned, the arrival driver
delivers a crate to machine 0, the machine fills it and hands it to the
priming call of the removal driver, and both drivers come back to their
guards. -/
def cycleSchedule : List Action :=
  [.main, .main, .main, .main, .main, .main,
   .arrival, .arrival, .arrival, .arrival, .handEmpty 0, .arrival, .arrival, .arrival,
   .worker 0, .removal, .handFull 0, .removal, .removal, .removal]

/-- The state the cycle schedule leads to: one crate went through, the empty
place is free, the full place is occupied, both drivers stand at their
guards. -/
def cycleState : System :=
  ⟨⟨false, true, []⟩, .wait, some .guard, some .guard,
   [⟨.recv, 1, 1⟩, ⟨.recv, 0, 0⟩, ⟨.recv, 0, 0⟩], 1, 1⟩

/-- A schedule that brings the arrival driver to the send of its first
iteration while the three machines wait at their receive. -/
def sendSchedule : List Action :=
  [.main, .main, .main, .main, .main, .main, .arrival, .arrival, .arrival, .arrival]

/-- The state the send schedule leads to. -/
def sendState : System :=
  ⟨⟨true, false, []⟩, .wait, some (.call .comm), some (.prime .test),
   [⟨.recv, 0, 0⟩, ⟨.recv, 0, 0⟩, ⟨.recv, 0, 0⟩], 0, 0⟩

/-! ## Timer registry (main.go lines 47-74) -/

/-- Go `delete(s.timers, id)`. -/
def mapDelete (m : List (TimerID × Timer)) (id : TimerID) : List (TimerID × Timer) :=
  m.filter (fun e => e.1 != id)

/-- Go `s.timers[id] = timer`: an entry already stored under `id` is replaced. -/
def mapStore (m : List (TimerID × Timer)) (id : TimerID) (timer : Timer) :
    List (TimerID × Timer) :=
  mapDelete m id ++ [(id, timer)]

/-- The goroutine a `StartTimer` call spawns (lines 62-71): the `id` and the
callback it captured, the clock value from which `time.After(d)` delivers,
whether its context has been cancelled (`ctx.Done()` is closed), and whether
it still waits at the `select`. -/
structure TimerGo where
  id : TimerID
  callback : Nat
  deadline : Nat
  cancelled : Bool
  waiting : Bool
deriving DecidableEq, Repr

/-- A sensor with its timer goroutines, a logical clock, and the callbacks
that have been executed, in order.  Goroutine `k` is the one spawned by the
`k`-th `StartTimer` call, and context `k` is the context of that call. -/
structure TimerWorld where
  sensor : Sensor
  gos : List TimerGo
  now : Nat
  ran : List Nat
deriving DecidableEq, Repr

/-- A sensor as `main` creates it, with no timer started. -/
def TimerWorld.init : TimerWorld :=
  ⟨⟨false, false, []⟩, [], 0, []⟩

/-- The cancel function of context `k`. -/
def cancelCtx (gos : List TimerGo) (k : Nat) : List TimerGo :=
  match gos[k]? with
  | some g => gos.set k { g with cancelled := true }
  | none => gos

/-- Go `func (s *Sensor) StartTimer(d time.Duration, callback func()) TimerID`,
lines 53-74: the handle is `len(s.timers)`, the timer is stored under it, and
the goroutine is spawned and reaches its `select` at once, so its delay runs
from the moment of the call.  Returns the handle and the new world. -/
def StartTimer (w : TimerWorld) (d : Nat) (callback : Nat) : TimerID × TimerWorld :=
  let id : TimerID := (w.sensor.timers.length : Int)
  let timer : Timer := ⟨callback, d, w.gos.length⟩
  (id, { w with
    sensor := { w.sensor with timers := mapStore w.sensor.timers id timer },
    gos := w.gos ++ [⟨id, callback, w.now + d, false, true⟩] })

/-- Go `func (s *Sensor) KillTimer(id TimerID)`, lines 47-51. -/
def KillTimer (w : TimerWorld) (id : TimerID) : TimerWorld :=
  match w.sensor.timers.lookup id with
  | some timer => { w with gos := cancelCtx w.gos timer.cancel }
  | none => w

/-- A goroutine waits at its `select` (line 63) with a channel ready:
`ctx.Done()` is closed or `time.After(d)` has delivered. -/
def TimerGo.ready (g : TimerGo) (now : Nat) : Bool :=
  g.waiting && (g.cancelled || decide (g.deadline ≤ now))

/-- One tick of the clock.  A goroutine whose `select` has a ready channel
takes its branch before the clock moves on, so the tick is enabled only when
no goroutine is ready.  A timer cancelled strictly before its delay elapses
therefore takes the `ctx.Done()` branch; both branches are open only when the
cancellation meets a delay that has already elapsed, where the Go `select`
picks either. -/
def tick (w : TimerWorld) : Option TimerWorld :=
  if w.gos.any (fun g => g.ready w.now) then none else some { w with now := w.now + 1 }

/-- Goroutine `k` takes the `case <-time.After(d)` branch of its `select`
(lines 64-66): the callback runs and the entry under the captured `id` is
deleted.  Enabled when the goroutine waits and its delay has elapsed. -/
def expire (w : TimerWorld) (k : Nat) : Option TimerWorld :=
  match w.gos[k]? with
  | some g =>
    if g.waiting && decide (g.deadline ≤ w.now) then
      some { w with
        sensor := { w.sensor with timers := mapDelete w.sensor.timers g.id },
        gos := w.gos.set k { g with waiting := false },
        ran := w.ran ++ [g.callback] }
    else none
  | none => none

/-- Goroutine `k` takes the `case <-ctx.Done()` branch of its `select`
(lines 67-69): the entry under the captured `id` is deleted and the goroutine
returns.  Enabled when the goroutine waits and its context is cancelled. -/
def observeCancel (w : TimerWorld) (k : Nat) : Option TimerWorld :=
  match w.gos[k]? with
  | some g =>
    if g.waiting && g.cancelled then
      some { w with
        sensor := { w.sensor with timers := mapDelete w.sensor.timers g.id },
        gos := w.gos.set k { g with waiting := false } }
    else none
  | none => none

/-- What can happen to a sensor with timers: a `StartTimer` call, a
`KillTimer` call, one tick of the clock, and the two branches of the `select`
of goroutine `k`. -/
inductive TimerEvent where
  | start (d : Nat) (callback : Nat)
  | kill (id : TimerID)
  | tick
  | fire (k : Nat)
  | stop (k : Nat)
deriving DecidableEq, Repr

/-- One event; `none` when the event is not enabled. -/
def timerStep : TimerEvent → TimerWorld → Option TimerWorld
  | .start d callback, w => some (StartTimer w d callback).2
  | .kill id, w => some (KillTimer w id)
  | .tick, w => tick w
  | .fire k, w => expire w k
  | .stop k, w => observeCancel w k

/-- Runs a list of events from a world; `none` when one is not enabled. -/
def runTimers : List TimerEvent → TimerWorld → Option TimerWorld
  | [], w => some w
  | e :: es, w =>
    match timerStep e w with
    | none => none
    | some w' => runTimers es w'

/-- The worlds reachable from a sensor with an empty registry. -/
inductive TimerReachable : TimerWorld → Prop where
  | init : TimerReachable TimerWorld.init
  | step {w w' : TimerWorld} (e : TimerEvent) :
      TimerReachable w → timerStep e w = some w' → TimerReachable w'

/-- A timer is live when it has been started and has neither fired nor been
cancelled. -/
def TimerGo.live (g : TimerGo) : Bool :=
  g.waiting && !g.cancelled

/-- Two timers are started at time 0, with delays 1 and 10 and callbacks 0 and
1; the clock ticks once and the first timer fires. -/
def reuseEvents : List TimerEvent :=
  [.start 1 0, .start 10 1, .tick, .fire 0]

/-- The world after `reuseEvents`: the registry holds the second timer alone,
under handle 1, and its goroutine waits until time 10. -/
def reuseWorld : TimerWorld :=
  ⟨⟨false, false, [(1, ⟨1, 10, 1⟩)]⟩,
   [⟨0, 0, 1, false, false⟩, ⟨1, 1, 10, false, true⟩], 1, [0]⟩

/-- After `reuseEvents`, a third timer is started with delay 10 and callback 2,
`KillTimer(1)` is called at time 1, the goroutine of the third timer takes its
`ctx.Done()` branch, the clock runs to time 10, and the goroutine of the
second timer takes its `time.After` branch. -/
def killEvents : List TimerEvent :=
  [.start 10 2, .kill 1, .stop 2,
   .tick, .tick, .tick, .tick, .tick, .tick, .tick, .tick, .tick, .fire 1]

/-- One timer is started with delay 1 and callback 0, the clock ticks, the
timer fires, and a second timer is started with delay 5 and callback 1. -/
def staleEvents : List TimerEvent :=
  [.start 1 0, .tick, .fire 0, .start 5 1]

/-- The world after `staleEvents`: the first timer has fired and the second
timer is live under handle 0, the handle the first timer was given. -/
def staleWorld : TimerWorld :=
  ⟨⟨false, false, [(0, ⟨1, 5, 1⟩)]⟩,
   [⟨0, 0, 1, false, false⟩, ⟨0, 1, 6, false, true⟩], 1, [0]⟩

/-- Goroutine `k` has left its `select`, or its context was cancelled while its
delay has not elapsed. -/
def Silenced (w : TimerWorld) (k : Nat) : Prop :=
  ∃ g, w.gos[k]? = some g ∧
    (g.waiting = false ∨ (g.cancelled = true ∧ w.now < g.deadline))

/-! ## Handler contracts -/

/-- C1: invoked with the empty-place flag false, `OnEmptyPlaceSensorChanged`
returns at once with no step other than the return, performs no channel
operation, takes no offer, and leaves the whole sensor (both flags, timer
registry) as it was; invoked with the full-place flag true,
`OnFullPlaceSensorChanged` does the same. -/
theorem handlers_noop_when_guard_fails (s : Sensor) (offers : Nat) :
    (s.emptyPlaceOccupied = false →
      invoke OnEmptyPlaceSensorChanged s offers
          = ⟨.returned, s, [(none, .ret, s)], offers⟩
        ∧ (invoke OnEmptyPlaceSensorChanged s offers).ops = []
        ∧ (invoke OnEmptyPlaceSensorChanged s offers).sensor = s) ∧
    (s.fullPlaceOccupied = true →
      invoke OnFullPlaceSensorChanged s offers
          = ⟨.returned, s, [(none, .ret, s)], offers⟩
        ∧ (invoke OnFullPlaceSensorChanged s offers).ops = []
        ∧ (invoke OnFullPlaceSensorChanged s offers).sensor = s) := by
  constructor
  · intro h
    simp [invoke, runHandler, OnEmptyPlaceSensorChanged,
      Sensor.GetEmptyPlaceSensorOccupied, h, Outcome.ops]
  · intro h
    simp [invoke, runHandler, OnFullPlaceSensorChanged,
      Sensor.GetFullPlaceSensorOccupied, h, Outcome.ops]

/-- Witness of C1 at a sensor with the empty flag false and the full flag
true and one live timer. -/
theorem handlers_noop_when_guard_fails_witness :
    (invoke OnEmptyPlaceSensorChanged ⟨false, true, [(0, ⟨7, 3, 0⟩)]⟩ 2).sensor
        = ⟨false, true, [(0, ⟨7, 3, 0⟩)]⟩ ∧
    (invoke OnFullPlaceSensorChanged ⟨false, true, [(0, ⟨7, 3, 0⟩)]⟩ 2).ops = [] :=
  ⟨((handlers_noop_when_guard_fails ⟨false, true, [(0, ⟨7, 3, 0⟩)]⟩ 2).1 rfl).2.2,
   ((handlers_noop_when_guard_fails ⟨false, true, [(0, ⟨7, 3, 0⟩)]⟩ 2).2 rfl).2.1⟩

/-- C2: with the empty-place flag true, an invocation of
`OnEmptyPlaceSensorChanged` whose send is accepted returns after exactly three
steps: the guard, one send on the empty-bottle channel with the sensor still
untouched (flag still true), and only then the write that clears the flag.  On
return the empty-place flag is false and the full-place flag and the timer
registry are as before.  When no partner accepts the send the invocation stays
blocked with the flag still true. -/
theorem onEmpty_sends_then_clears (s : Sensor) (offers : Nat)
    (h : s.emptyPlaceOccupied = true) :
    invoke OnEmptyPlaceSensorChanged s (offers + 1)
        = ⟨.returned, { s with emptyPlaceOccupied := false },
            [(none, .comm, s), (some .sendEmpty, .update, s),
             (none, .ret, { s with emptyPlaceOccupied := false })], offers⟩ ∧
    (invoke OnEmptyPlaceSensorChanged s (offers + 1)).ops = [.sendEmpty] ∧
    (invoke OnEmptyPlaceSensorChanged s (offers + 1)).sensor.emptyPlaceOccupied = false ∧
    (invoke OnEmptyPlaceSensorChanged s (offers + 1)).sensor.fullPlaceOccupied
        = s.fullPlaceOccupied ∧
    (invoke OnEmptyPlaceSensorChanged s (offers + 1)).sensor.timers = s.timers ∧
    invoke OnEmptyPlaceSensorChanged s 0 = ⟨.blocked, s, [(none, .comm, s)], 0⟩ := by
  simp [invoke, runHandler, OnEmptyPlaceSensorChanged,
    Sensor.GetEmptyPlaceSensorOccupied, Sensor.SetEmptyPlaceSensorOccupied, h, Outcome.ops]

/-- Witness of C2 at a sensor with both flags true. -/
theorem onEmpty_sends_then_clears_witness :
    (invoke OnEmptyPlaceSensorChanged ⟨true, true, []⟩ 1).ops = [.sendEmpty] ∧
    (invoke OnEmptyPlaceSensorChanged ⟨true, true, []⟩ 1).sensor = ⟨false, true, []⟩ :=
  ⟨(onEmpty_sends_then_clears ⟨true, true, []⟩ 0 rfl).2.1,
   by rw [(onEmpty_sends_then_clears ⟨true, true, []⟩ 0 rfl).1]⟩

/-- C3: with the full-place flag false, an invocation of
`OnFullPlaceSensorChanged` whose receive is paired returns after exactly three
steps: the guard, one receive from the full-bottle channel with the sensor
still untouched (flag still false), and only then the write that sets the
flag.  On return the full-place flag is true and the empty-place flag and the
timer registry are as before.  When no partner offers a token the invocation
stays blocked with the flag still false. -/
theorem onFull_receives_then_sets (s : Sensor) (offers : Nat)
    (h : s.fullPlaceOccupied = false) :
    invoke OnFullPlaceSensorChanged s (offers + 1)
        = ⟨.returned, { s with fullPlaceOccupied := true },
            [(none, .comm, s), (some .recvFull, .update, s),
             (none, .ret, { s with fullPlaceOccupied := true })], offers⟩ ∧
    (invoke OnFullPlaceSensorChanged s (offers + 1)).ops = [.recvFull] ∧
    (invoke OnFullPlaceSensorChanged s (offers + 1)).sensor.fullPlaceOccupied = true ∧
    (invoke OnFullPlaceSensorChanged s (offers + 1)).sensor.emptyPlaceOccupied
        = s.emptyPlaceOccupied ∧
    (invoke OnFullPlaceSensorChanged s (offers + 1)).sensor.timers = s.timers ∧
    invoke OnFullPlaceSensorChanged s 0 = ⟨.blocked, s, [(none, .comm, s)], 0⟩ := by
  simp [invoke, runHandler, OnFullPlaceSensorChanged,
    Sensor.GetFullPlaceSensorOccupied, Sensor.SetFullPlaceSensorOccupied, h, Outcome.ops]

/-- Witness of C3 at the sensor `main` starts with. -/
theorem onFull_receives_then_sets_witness :
    (invoke OnFullPlaceSensorChanged ⟨false, false, []⟩ 1).ops = [.recvFull] ∧
    (invoke OnFullPlaceSensorChanged ⟨false, false, []⟩ 1).sensor = ⟨false, true, []⟩ :=
  ⟨(onFull_receives_then_sets ⟨false, false, []⟩ 0 rfl).2.1,
   by rw [(onFull_receives_then_sets ⟨false, false, []⟩ 0 rfl).1]⟩

/-! ## Invariant of the wired program -/

theorem sum_map_set (f : Worker → Nat) :
    ∀ (l : List Worker) (i : Nat) (w w' : Worker), l[i]? = some w →
      ((l.set i w').map f).sum + f w = (l.map f).sum + f w'
  | [], i, w, w', h => by simp at h
  | x :: l, 0, w, w', h => by
    simp at h
    subst h
    simp
    omega
  | x :: l, i + 1, w, w', h => by
    simp at h
    have ih := sum_map_set f l i w w' h
    simp only [List.set_cons_succ, List.map_cons, List.sum_cons]
    omega

theorem arrivalStep_spec {pc pc' : ArrivalPc} {s s' : Sensor}
    (h : arrivalStep pc s = some (pc', s'))
    (hf : s.emptyPlaceOccupied = arrivalFlag (some pc)) :
    s'.emptyPlaceOccupied = arrivalFlag (some pc') ∧
    s'.fullPlaceOccupied = s.fullPlaceOccupied ∧ s'.timers = s.timers := by
  cases pc with
  | sleep => simp [arrivalStep] at h; obtain ⟨rfl, rfl⟩ := h; simpa [arrivalFlag] using hf
  | guard =>
    simp [arrivalStep, Sensor.GetEmptyPlaceSensorOccupied, hf, arrivalFlag] at h
    obtain ⟨rfl, rfl⟩ := h
    simpa [arrivalFlag] using hf
  | set =>
    simp [arrivalStep, Sensor.SetEmptyPlaceSensorOccupied] at h
    obtain ⟨rfl, rfl⟩ := h
    simp [arrivalFlag]
  | call hpc =>
    cases hpc <;>
      simp [arrivalStep, OnEmptyPlaceSensorChanged, Sensor.GetEmptyPlaceSensorOccupied,
        Sensor.SetEmptyPlaceSensorOccupied, hf, arrivalFlag] at h <;>
      obtain ⟨rfl, rfl⟩ := h <;> simp_all [arrivalFlag]

theorem removalStep_spec {pc pc' : RemovalPc} {s s' : Sensor}
    (h : removalStep pc s = some (pc', s'))
    (hf : s.fullPlaceOccupied = removalFlag (some pc)) :
    s'.fullPlaceOccupied = removalFlag (some pc') ∧
    s'.emptyPlaceOccupied = s.emptyPlaceOccupied ∧ s'.timers = s.timers := by
  cases pc with
  | sleep => simp [removalStep] at h; obtain ⟨rfl, rfl⟩ := h; simpa [removalFlag] using hf
  | guard =>
    simp [removalStep, Sensor.GetFullPlaceSensorOccupied, hf, removalFlag] at h
    obtain ⟨rfl, rfl⟩ := h
    simpa [removalFlag] using hf
  | clear =>
    simp [removalStep, Sensor.SetFullPlaceSensorOccupied] at h
    obtain ⟨rfl, rfl⟩ := h
    simp [removalFlag]
  | prime hpc =>
    cases hpc <;>
      simp [removalStep, OnFullPlaceSensorChanged, Sensor.GetFullPlaceSensorOccupied,
        Sensor.SetFullPlaceSensorOccupied, hf, removalFlag] at h <;>
      obtain ⟨rfl, rfl⟩ := h <;> simp_all [removalFlag]
  | call hpc =>
    cases hpc <;>
      simp [removalStep, OnFullPlaceSensorChanged, Sensor.GetFullPlaceSensorOccupied,
        Sensor.SetFullPlaceSensorOccupied, hf, removalFlag] at h <;>
      obtain ⟨rfl, rfl⟩ := h <;> simp_all [removalFlag]

theorem arrivalSend_spec {pc pc' : ArrivalPc} {s : Sensor}
    (h : arrivalSend pc s = some pc') :
    pc = .call .comm ∧ pc' = .call .update := by
  cases pc with
  | call hpc =>
    cases hpc <;> simp [arrivalSend, OnEmptyPlaceSensorChanged] at h
    · split at h
      · rename_i heq
        split at heq <;> simp at heq
      · simp at h
    · exact ⟨rfl, h.symm⟩
  | _ => simp [arrivalSend] at h

theorem removalRecv_spec {pc pc' : RemovalPc} {s : Sensor}
    (h : removalRecv pc s = some pc') :
    (pc = .prime .comm ∧ pc' = .prime .update) ∨
    (pc = .call .comm ∧ pc' = .call .update) := by
  cases pc with
  | prime hpc =>
    cases hpc <;> simp [removalRecv, OnFullPlaceSensorChanged] at h
    · split at h
      · rename_i heq
        split at heq <;> simp at heq
      · simp at h
    · exact Or.inl ⟨rfl, h.symm⟩
  | call hpc =>
    cases hpc <;> simp [removalRecv, OnFullPlaceSensorChanged] at h
    · split at h
      · rename_i heq
        split at heq <;> simp at heq
      · simp at h
    · exact Or.inr ⟨rfl, h.symm⟩
  | _ => simp [removalRecv] at h

theorem spawnedOk_congr {σ σ' : System} (hm : σ'.main = σ.main)
    (ha : σ'.arrival ≠ none ↔ σ.arrival ≠ none)
    (hr : σ'.removal ≠ none ↔ σ.removal ≠ none)
    (hw : σ'.workers.length = σ.workers.length) (h : spawnedOk σ) : spawnedOk σ' := by
  have ha' : σ'.arrival = none ↔ σ.arrival = none := not_iff_not.mp ha
  have hr' : σ'.removal = none ↔ σ.removal = none := not_iff_not.mp hr
  have hw' : σ'.workers = [] ↔ σ.workers = [] := by
    rw [← List.length_eq_zero, ← List.length_eq_zero, hw]
  unfold spawnedOk at h ⊢
  rw [hm]
  cases hmain : σ.main <;> simp only [hmain] at h ⊢
  · exact ⟨ha'.mpr h.1, hr'.mpr h.2.1, hw'.mpr h.2.2⟩
  · exact ⟨ha.mpr h.1, hr'.mpr h.2.1, hw'.mpr h.2.2⟩
  · exact ⟨ha.mpr h.1, hr.mpr h.2.1, hw ▸ h.2.2.1, h.2.2.2⟩
  · exact ⟨ha.mpr h.1, hr.mpr h.2.1, hw ▸ h.2.2⟩

theorem inv_init : Inv System.init := by
  constructor <;> simp [System.init, arrivalFlag, removalFlag, spawnedOk,
    System.emptyReceived, System.fullProduced]


theorem step_arrival_some {σ σ' : System} (h : step .arrival σ = some σ') :
    ∃ pc pc' s', σ.arrival = some pc ∧ arrivalStep pc σ.sensor = some (pc', s') ∧
      σ' = { σ with arrival := some pc', sensor := s' } := by
  simp only [step] at h
  cases ha : σ.arrival with
  | none => simp [ha] at h
  | some pc =>
    cases hs : arrivalStep pc σ.sensor with
    | none => simp [ha, hs] at h
    | some r =>
      obtain ⟨pc', s'⟩ := r
      simp [ha, hs] at h
      exact ⟨pc, pc', s', rfl, hs, h.symm⟩

theorem step_removal_some {σ σ' : System} (h : step .removal σ = some σ') :
    ∃ pc pc' s', σ.removal = some pc ∧ removalStep pc σ.sensor = some (pc', s') ∧
      σ' = { σ with removal := some pc', sensor := s' } := by
  simp only [step] at h
  cases ha : σ.removal with
  | none => simp [ha] at h
  | some pc =>
    cases hs : removalStep pc σ.sensor with
    | none => simp [ha, hs] at h
    | some r =>
      obtain ⟨pc', s'⟩ := r
      simp [ha, hs] at h
      exact ⟨pc, pc', s', rfl, hs, h.symm⟩

theorem step_worker_some {σ σ' : System} {i : Nat} (h : step (.worker i) σ = some σ') :
    ∃ w, σ.workers[i]? = some w ∧ w.pc = .fill ∧
      σ' = { σ with workers := σ.workers.set i { w with pc := .send } } := by
  simp only [step] at h
  cases hw : σ.workers[i]? with
  | none => simp [hw] at h
  | some w =>
    by_cases hp : w.pc = .fill
    · simp [hw, Worker.finishFill, hp] at h
      exact ⟨w, rfl, hp, h.symm⟩
    · simp [hw, Worker.finishFill, hp] at h

theorem step_handEmpty_some {σ σ' : System} {i : Nat}
    (h : step (.handEmpty i) σ = some σ') :
    ∃ w, σ.arrival = some (.call .comm) ∧ σ.workers[i]? = some w ∧ w.pc = .recv ∧
      σ' = { σ with arrival := some (.call .update),
                    workers := σ.workers.set i
                      { w with pc := .fill, received := w.received + 1 },
                    emptySent := σ.emptySent + 1 } := by
  simp only [step] at h
  cases ha : σ.arrival with
  | none => simp [ha] at h
  | some pc =>
    cases hw : σ.workers[i]? with
    | none => simp [ha, hw] at h
    | some w =>
      cases hs : arrivalSend pc σ.sensor with
      | none => simp [ha, hw, hs] at h
      | some pc' =>
        obtain ⟨rfl, rfl⟩ := arrivalSend_spec hs
        by_cases hp : w.pc = .recv
        · simp [ha, hw, hs, Worker.receive, hp] at h
          exact ⟨w, rfl, rfl, hp, h.symm⟩
        · simp [ha, hw, hs, Worker.receive, hp] at h

theorem step_handFull_some {σ σ' : System} {i : Nat}
    (h : step (.handFull i) σ = some σ') :
    ∃ w pc pc', σ.removal = some pc ∧
      ((pc = .prime .comm ∧ pc' = .prime .update) ∨
        (pc = .call .comm ∧ pc' = .call .update)) ∧
      σ.workers[i]? = some w ∧ w.pc = .send ∧
      σ' = { σ with removal := some pc',
                    workers := σ.workers.set i
                      { w with pc := .recv, produced := w.produced + 1 },
                    fullTaken := σ.fullTaken + 1 } := by
  simp only [step] at h
  cases ha : σ.removal with
  | none => simp [ha] at h
  | some pc =>
    cases hw : σ.workers[i]? with
    | none => simp [ha, hw] at h
    | some w =>
      cases hs : removalRecv pc σ.sensor with
      | none => simp [ha, hw, hs] at h
      | some pc' =>
        have hspec := removalRecv_spec hs
        by_cases hp : w.pc = .send
        · simp [ha, hw, hs, Worker.deliver, hp] at h
          exact ⟨w, pc, pc', rfl, hspec, rfl, hp, h.symm⟩
        · simp [ha, hw, hs, Worker.deliver, hp] at h

theorem each_set {l : List Worker} {i : Nat} {w' : Worker}
    (h : ∀ w ∈ l, w.received = w.produced + w.holds)
    (hw' : w'.received = w'.produced + w'.holds) :
    ∀ w ∈ l.set i w', w.received = w.produced + w.holds := by
  intro w hw
  rcases List.mem_or_eq_of_mem_set hw with hm | rfl
  · exact h w hm
  · exact hw'

theorem inv_main {σ σ' : System} (hi : Inv σ) (h : step .main σ = some σ') : Inv σ' := by
  obtain ⟨h1, h2, h3, h4, h5, h6, h7⟩ := hi
  simp only [step, mainStep] at h
  unfold spawnedOk at h4
  cases hm : σ.main with
  | spawnArrival =>
    simp only [hm] at h h4
    simp only [Option.some.injEq] at h
    subst h
    obtain ⟨ha, hr, hw⟩ := h4
    refine ⟨?_, h2, h3, ?_, h5, h6, h7⟩
    · simpa [arrivalFlag, ha] using h1
    · simp only [spawnedOk]
      exact ⟨by simp, hr, hw⟩
  | spawnRemoval =>
    simp only [hm] at h h4
    simp only [Option.some.injEq] at h
    subst h
    obtain ⟨ha, hr, hw⟩ := h4
    refine ⟨h1, ?_, h3, ?_, h5, h6, h7⟩
    · simpa [removalFlag, hr] using h2
    · simp only [spawnedOk]
      exact ⟨ha, by simp, by simp [hw], by omega⟩
  | run i =>
    simp only [hm, Run] at h h4
    obtain ⟨ha, hr, hw, hle⟩ := h4
    by_cases hlt : i < 3
    · simp only [hlt, if_true, Option.some.injEq] at h
      subst h
      constructor
      · exact h1
      · exact h2
      · exact h3
      · simp only [spawnedOk, List.length_append, List.length_singleton]
        exact ⟨ha, hr, by omega, by omega⟩
      · simpa [System.emptyReceived] using h5
      · simpa [System.fullProduced] using h6
      · intro w hw'
        rcases List.mem_append.mp hw' with hm' | hm'
        · exact h7 w hm'
        · simp at hm'
          subst hm'
          simp [Worker.holds]
    · simp only [hlt, if_false, Option.some.injEq] at h
      subst h
      constructor
      · exact h1
      · exact h2
      · exact h3
      · simp only [spawnedOk]
        exact ⟨ha, hr, by omega⟩
      · exact h5
      · exact h6
      · exact h7
  | wait => simp [hm] at h

theorem inv_step {σ σ' : System} (a : Action) (hi : Inv σ) (h : step a σ = some σ') :
    Inv σ' := by
  cases a with
  | main => exact inv_main hi h
  | arrival =>
    obtain ⟨pc, pc', s', ha, hs, rfl⟩ := step_arrival_some h
    obtain ⟨h1, h2, h3, h4, h5, h6, h7⟩ := hi
    obtain ⟨e1, e2, e3⟩ := arrivalStep_spec hs (ha ▸ h1)
    refine ⟨e1, by simpa [e2] using h2, by simpa [e3] using h3, ?_, h5, h6, h7⟩
    exact @spawnedOk_congr σ _ rfl (by simp [ha]) Iff.rfl rfl h4
  | removal =>
    obtain ⟨pc, pc', s', ha, hs, rfl⟩ := step_removal_some h
    obtain ⟨h1, h2, h3, h4, h5, h6, h7⟩ := hi
    obtain ⟨e1, e2, e3⟩ := removalStep_spec hs (ha ▸ h2)
    refine ⟨by simpa [e2] using h1, e1, by simpa [e3] using h3, ?_, h5, h6, h7⟩
    exact @spawnedOk_congr σ _ rfl Iff.rfl (by simp [ha]) rfl h4
  | worker i =>
    obtain ⟨w, hw, hp, rfl⟩ := step_worker_some h
    obtain ⟨h1, h2, h3, h4, h5, h6, h7⟩ := hi
    have hr := sum_map_set Worker.received σ.workers i w { w with pc := .send } hw
    have hq := sum_map_set Worker.produced σ.workers i w { w with pc := .send } hw
    have hw7 := h7 w (List.getElem?_mem hw)
    refine ⟨h1, h2, h3, ?_, ?_, ?_, ?_⟩
    · exact @spawnedOk_congr σ _ rfl Iff.rfl Iff.rfl (List.length_set _ _ _) h4
    · simp only [System.emptyReceived] at h5 ⊢
      simp only at hr
      omega
    · simp only [System.fullProduced] at h6 ⊢
      simp only at hq
      omega
    · apply each_set h7
      simp only [Worker.holds, hp] at hw7 ⊢
      simpa using hw7
  | handEmpty i =>
    obtain ⟨w, ha, hw, hp, rfl⟩ := step_handEmpty_some h
    obtain ⟨h1, h2, h3, h4, h5, h6, h7⟩ := hi
    have hr := sum_map_set Worker.received σ.workers i w
      { w with pc := .fill, received := w.received + 1 } hw
    have hq := sum_map_set Worker.produced σ.workers i w
      { w with pc := .fill, received := w.received + 1 } hw
    have hw7 := h7 w (List.getElem?_mem hw)
    refine ⟨?_, h2, h3, ?_, ?_, ?_, ?_⟩
    · simpa [arrivalFlag, ha] using h1
    · exact @spawnedOk_congr σ _ rfl (by simp [ha]) Iff.rfl (List.length_set _ _ _) h4
    · simp only [System.emptyReceived] at h5 ⊢
      simp only at hr
      omega
    · simp only [System.fullProduced] at h6 ⊢
      simp only at hq
      omega
    · apply each_set h7
      simp only [Worker.holds, hp] at hw7 ⊢
      simp at hw7 ⊢
      omega
  | handFull i =>
    obtain ⟨w, pc, pc', ha, hpc, hw, hp, rfl⟩ := step_handFull_some h
    obtain ⟨h1, h2, h3, h4, h5, h6, h7⟩ := hi
    have hr := sum_map_set Worker.received σ.workers i w
      { w with pc := .recv, produced := w.produced + 1 } hw
    have hq := sum_map_set Worker.produced σ.workers i w
      { w with pc := .recv, produced := w.produced + 1 } hw
    have hw7 := h7 w (List.getElem?_mem hw)
    refine ⟨h1, ?_, h3, ?_, ?_, ?_, ?_⟩
    · rcases hpc with ⟨rfl, rfl⟩ | ⟨rfl, rfl⟩ <;> simpa [removalFlag, ha] using h2
    · exact @spawnedOk_congr σ _ rfl Iff.rfl (by simp [ha]) (List.length_set _ _ _) h4
    · simp only [System.emptyReceived] at h5 ⊢
      simp only at hr
      omega
    · simp only [System.fullProduced] at h6 ⊢
      simp only at hq
      omega
    · apply each_set h7
      simp only [Worker.holds, hp] at hw7 ⊢
      simp at hw7 ⊢
      omega

theorem reachable_inv {σ : System} (h : Reachable σ) : Inv σ := by
  induction h with
  | init => exact inv_init
  | step a _ hs ih => exact inv_step a ih hs

theorem holding_eq {l : List Worker}
    (h : ∀ w ∈ l, w.received = w.produced + w.holds) :
    (l.map Worker.received).sum = (l.map Worker.produced).sum + (l.map Worker.holds).sum := by
  induction l with
  | nil => simp
  | cons x l ih =>
    have hx := h x (List.mem_cons_self _ _)
    have hl := ih (fun w hw => h w (List.mem_cons_of_mem _ hw))
    simp only [List.map_cons, List.sum_cons]
    omega

theorem holds_sum_le (l : List Worker) : (l.map Worker.holds).sum ≤ l.length := by
  induction l with
  | nil => simp
  | cons x l ih =>
    have hx : x.holds ≤ 1 := by unfold Worker.holds; split <;> omega
    simp only [List.map_cons, List.sum_cons, List.length_cons]
    omega

theorem workers_length_le {σ : System} (h : spawnedOk σ) : σ.workers.length ≤ 3 := by
  unfold spawnedOk at h
  cases hm : σ.main <;> simp only [hm] at h
  · simp [h.2.2]
  · simp [h.2.2]
  · omega
  · omega


theorem reachable_runActions {σ : System} (h : Reachable σ) :
    ∀ (as : List Action) (σ' : System), runActions as σ = some σ' → Reachable σ' := by
  intro as
  induction as generalizing σ with
  | nil =>
    intro σ' h'
    simp [runActions] at h'
    exact h' ▸ h
  | cons a as ih =>
    intro σ' h'
    simp only [runActions] at h'
    cases hs : step a σ with
    | none => simp [hs] at h'
    | some σ₁ =>
      simp only [hs] at h'
      exact ih (Reachable.step a h hs) σ' h'

theorem sampleState_reachable : Reachable sampleState :=
  reachable_runActions Reachable.init sampleSchedule sampleState (by decide)

/-! ## Contracts of the wired program -/

/-- C4: token conservation in every reachable state of the program wired in
`main`.  The sends completed on the empty-bottle channel equal the receives of
the machines, the sends of the machines on the full-bottle channel equal the
receives completed by `OnFullPlaceSensorChanged`, each machine has received as
many tokens as it has sent plus the one crate it may hold, and the tokens sent
on the empty-bottle channel equal the tokens taken from the full-bottle
channel plus the number of machines holding a crate, which is at most 3. -/
theorem token_conservation {σ : System} (h : Reachable σ) :
    σ.emptySent = σ.emptyReceived ∧
    σ.fullProduced = σ.fullTaken ∧
    (∀ w ∈ σ.workers, w.received = w.produced + w.holds ∧ w.holds ≤ 1) ∧
    σ.emptySent = σ.fullTaken + σ.holding ∧
    0 ≤ σ.holding ∧ σ.holding ≤ 3 ∧ σ.workers.length ≤ 3 := by
  have hi := reachable_inv h
  have hsum := holding_eq hi.each
  have hle := holds_sum_le σ.workers
  have hlen := workers_length_le hi.spawned
  have h5 := hi.sent
  have h6 := hi.taken
  simp only [System.emptyReceived, System.fullProduced, System.holding] at *
  refine ⟨h5, h6, ?_, by omega, by omega, by omega, hlen⟩
  intro w hw
  refine ⟨hi.each w hw, ?_⟩
  unfold Worker.holds
  split <;> omega

/-- Witness of C4 at the state where one crate has been delivered and machine 1
is filling it. -/
theorem token_conservation_witness :
    Reachable sampleState ∧
    sampleState.emptySent = sampleState.fullTaken + sampleState.holding ∧
    sampleState.holding = 1 :=
  ⟨sampleState_reachable, (token_conservation sampleState_reachable).2.2.2.1, by decide⟩


theorem arrivalStep_none {pc : ArrivalPc} {s : Sensor} (h : arrivalStep pc s = none) :
    pc = .call .comm := by
  cases pc with
  | call hpc =>
    cases hpc with
    | test =>
      cases hg : s.GetEmptyPlaceSensorOccupied <;>
        simp [arrivalStep, OnEmptyPlaceSensorChanged, hg] at h
    | comm => rfl
    | update => simp [arrivalStep, OnEmptyPlaceSensorChanged] at h
    | ret => simp [arrivalStep, OnEmptyPlaceSensorChanged] at h
  | sleep => simp [arrivalStep] at h
  | guard =>
    simp only [arrivalStep] at h
    split at h <;> simp at h
  | set => simp [arrivalStep] at h

theorem removalStep_none {pc : RemovalPc} {s : Sensor} (h : removalStep pc s = none) :
    pc = .prime .comm ∨ pc = .call .comm := by
  cases pc with
  | prime hpc =>
    cases hpc with
    | test =>
      cases hg : s.GetFullPlaceSensorOccupied <;>
        simp [removalStep, OnFullPlaceSensorChanged, hg] at h
    | comm => simp
    | update => simp [removalStep, OnFullPlaceSensorChanged] at h
    | ret => simp [removalStep, OnFullPlaceSensorChanged] at h
  | call hpc =>
    cases hpc with
    | test =>
      cases hg : s.GetFullPlaceSensorOccupied <;>
        simp [removalStep, OnFullPlaceSensorChanged, hg] at h
    | comm => simp
    | update => simp [removalStep, OnFullPlaceSensorChanged] at h
    | ret => simp [removalStep, OnFullPlaceSensorChanged] at h
  | sleep => simp [removalStep] at h
  | guard =>
    simp only [removalStep] at h
    split at h <;> simp at h
  | clear => simp [removalStep] at h

theorem enabled_of_spawned {σ : System} (hs : spawnedOk σ) :
    ∃ a σ', step a σ = some σ' := by
  unfold spawnedOk at hs
  cases hm : σ.main with
  | spawnArrival => exact ⟨.main, _, by simp [step, mainStep, hm]; rfl⟩
  | spawnRemoval => exact ⟨.main, _, by simp [step, mainStep, hm]; rfl⟩
  | run i =>
    by_cases hlt : i < 3
    · exact ⟨.main, _, by simp [step, mainStep, hm]; rfl⟩
    · exact ⟨.main, _, by simp [step, mainStep, hm]; rfl⟩
  | wait =>
    simp only [hm] at hs
    obtain ⟨ha, hr, hw⟩ := hs
    obtain ⟨a, ha⟩ := Option.ne_none_iff_exists'.mp ha
    obtain ⟨r, hr⟩ := Option.ne_none_iff_exists'.mp hr
    cases hsa : arrivalStep a σ.sensor with
    | some p => exact ⟨.arrival, _, by simp [step, ha, hsa]; rfl⟩
    | none =>
      cases hsr : removalStep r σ.sensor with
      | some p => exact ⟨.removal, _, by simp [step, hr, hsr]; rfl⟩
      | none =>
        have ea := arrivalStep_none hsa
        have er := removalStep_none hsr
        subst ea
        cases hl : σ.workers with
        | nil => simp [hl] at hw
        | cons w l =>
          cases hp : w.pc with
          | fill =>
            exact ⟨.worker 0, _, by simp [step, hl, Worker.finishFill, hp]; rfl⟩
          | recv =>
            exact ⟨.handEmpty 0, _, by
              simp [step, hl, ha, arrivalSend, OnEmptyPlaceSensorChanged,
                Worker.receive, hp]; rfl⟩
          | send =>
            rcases er with rfl | rfl
            · exact ⟨.handFull 0, _, by
                simp [step, hl, hr, removalRecv, OnFullPlaceSensorChanged,
                  Worker.deliver, hp]; rfl⟩
            · exact ⟨.handFull 0, _, by
                simp [step, hl, hr, removalRecv, OnFullPlaceSensorChanged,
                  Worker.deliver, hp]; rfl⟩

theorem allBlocked_false (σ : System) : σ.allBlocked = false := by
  cases hb : σ.allBlocked with
  | false => rfl
  | true =>
    exfalso
    simp only [System.allBlocked, Bool.and_eq_true, beq_iff_eq, Bool.not_eq_true',
      List.all_eq_true, List.any_eq_false, bne_iff_ne] at hb
    obtain ⟨⟨⟨⟨⟨hlen, -⟩, -⟩, hfill⟩, hrecv⟩, hsend⟩ := hb
    cases hl : σ.workers with
    | nil => simp [hl] at hlen
    | cons w l =>
      have hm : w ∈ σ.workers := by simp [hl]
      have h1 := hfill w hm
      have h2 := hrecv w hm
      have h3 := hsend w hm
      cases hp : w.pc <;> simp [hp] at h1 h2 h3

/-- C5: deadlock freedom of the program wired in `main`.  In every reachable
state some action is enabled (a step of the main goroutine, a local step of a
driver or a machine, or a hand-off between a sender and a receiver), so the
state is not deadlocked, and the state where the arrival driver, the removal
driver and the three machines all stand at a channel operation with no
matching counterpart is not reached. -/
theorem deadlock_free {σ : System} (h : Reachable σ) :
    (∃ a σ', step a σ = some σ') ∧ ¬ σ.Deadlocked ∧ σ.allBlocked = false := by
  have he := enabled_of_spawned (reachable_inv h).spawned
  refine ⟨he, ?_, allBlocked_false σ⟩
  intro hd
  obtain ⟨a, σ', hs⟩ := he
  rw [hd a] at hs
  exact Option.noConfusion hs

/-- Witness of C5 at the state where machine 1 is filling: the machine can
finish its fill. -/
theorem deadlock_free_witness :
    Reachable sampleState ∧ (∃ a σ', step a sampleState = some σ') ∧
    (step (.worker 1) sampleState).isSome = true :=
  ⟨sampleState_reachable, (deadlock_free sampleState_reachable).1, by decide⟩


theorem guardState_reachable : Reachable guardState :=
  reachable_runActions Reachable.init guardSchedule guardState (by decide)

theorem step_main_sensor {σ σ' : System} (h : step .main σ = some σ') :
    σ'.sensor = σ.sensor := by
  simp only [step, mainStep] at h
  cases hm : σ.main with
  | spawnArrival => simp [hm] at h; subst h; rfl
  | spawnRemoval => simp [hm] at h; subst h; rfl
  | run i =>
    simp only [hm, Run, Option.some.injEq] at h
    subst h
    split <;> rfl
  | wait => simp [hm] at h

theorem arrivalStep_ignores_full (pc : ArrivalPc) (s : Sensor) (b : Bool) :
    arrivalStep pc { s with fullPlaceOccupied := b }
      = (arrivalStep pc s).map (fun r => (r.1, { r.2 with fullPlaceOccupied := b })) := by
  cases pc with
  | call hpc =>
    cases hpc with
    | test =>
      cases hg : s.emptyPlaceOccupied <;>
        simp [arrivalStep, OnEmptyPlaceSensorChanged, Sensor.GetEmptyPlaceSensorOccupied, hg]
    | comm => simp [arrivalStep, OnEmptyPlaceSensorChanged]
    | update =>
      simp [arrivalStep, OnEmptyPlaceSensorChanged, Sensor.SetEmptyPlaceSensorOccupied]
    | ret => simp [arrivalStep, OnEmptyPlaceSensorChanged]
  | guard =>
    simp only [arrivalStep, Sensor.GetEmptyPlaceSensorOccupied]
    split <;> simp
  | sleep => simp [arrivalStep]
  | set => simp [arrivalStep, Sensor.SetEmptyPlaceSensorOccupied]

theorem removalStep_ignores_empty (pc : RemovalPc) (s : Sensor) (b : Bool) :
    removalStep pc { s with emptyPlaceOccupied := b }
      = (removalStep pc s).map (fun r => (r.1, { r.2 with emptyPlaceOccupied := b })) := by
  cases pc with
  | prime hpc =>
    cases hpc with
    | test =>
      cases hg : s.fullPlaceOccupied <;>
        simp [removalStep, OnFullPlaceSensorChanged, Sensor.GetFullPlaceSensorOccupied, hg]
    | comm => simp [removalStep, OnFullPlaceSensorChanged]
    | update =>
      simp [removalStep, OnFullPlaceSensorChanged, Sensor.SetFullPlaceSensorOccupied]
    | ret => simp [removalStep, OnFullPlaceSensorChanged]
  | call hpc =>
    cases hpc with
    | test =>
      cases hg : s.fullPlaceOccupied <;>
        simp [removalStep, OnFullPlaceSensorChanged, Sensor.GetFullPlaceSensorOccupied, hg]
    | comm => simp [removalStep, OnFullPlaceSensorChanged]
    | update =>
      simp [removalStep, OnFullPlaceSensorChanged, Sensor.SetFullPlaceSensorOccupied]
    | ret => simp [removalStep, OnFullPlaceSensorChanged]
  | guard =>
    simp only [removalStep, Sensor.GetFullPlaceSensorOccupied]
    split <;> simp
  | sleep => simp [removalStep]
  | clear => simp [removalStep, Sensor.SetFullPlaceSensorOccupied]

theorem step_frame {σ σ' : System} (hi : Inv σ) (a : Action) (h : step a σ = some σ') :
    (a ≠ .arrival → σ'.sensor.emptyPlaceOccupied = σ.sensor.emptyPlaceOccupied) ∧
    (a ≠ .removal → σ'.sensor.fullPlaceOccupied = σ.sensor.fullPlaceOccupied) := by
  cases a with
  | main => simp [step_main_sensor h]
  | arrival =>
    obtain ⟨pc, pc', s', ha, hs, rfl⟩ := step_arrival_some h
    have e := arrivalStep_spec hs (ha ▸ hi.emptyFlag)
    simp [e.2.1]
  | removal =>
    obtain ⟨pc, pc', s', ha, hs, rfl⟩ := step_removal_some h
    have e := removalStep_spec hs (ha ▸ hi.fullFlag)
    simp [e.2.1]
  | worker i =>
    obtain ⟨w, hw, hp, rfl⟩ := step_worker_some h
    simp
  | handEmpty i =>
    obtain ⟨w, ha, hw, hp, rfl⟩ := step_handEmpty_some h
    simp
  | handFull i =>
    obtain ⟨w, pc, pc', ha, hpc, hw, hp, rfl⟩ := step_handFull_some h
    simp


/-! ## Iterations and hand-offs -/

theorem step_main_some {σ σ' : System} (hi : Inv σ) (h : step .main σ = some σ') :
    σ'.emptySent = σ.emptySent ∧ σ'.fullTaken = σ.fullTaken ∧
    arrivalPending σ'.arrival = arrivalPending σ.arrival ∧
    removalPending σ'.removal + removalPrimed σ.removal
      = removalPending σ.removal + removalPrimed σ'.removal := by
  have hs := hi.spawned
  unfold spawnedOk at hs
  simp only [step, mainStep] at h
  cases hm : σ.main with
  | spawnArrival =>
    simp only [hm] at h hs
    simp only [Option.some.injEq] at h
    subst h
    simp [hs.1, arrivalPending]
  | spawnRemoval =>
    simp only [hm] at h hs
    simp only [Option.some.injEq] at h
    subst h
    simp [hs.2.1, removalPending, removalPrimed]
  | run i =>
    simp only [hm, Run, Option.some.injEq] at h
    subst h
    split <;> simp
  | wait => simp [hm] at h

theorem arrival_count_step {σ σ' : System} (hi : Inv σ) (a : Action)
    (h : step a σ = some σ') :
    (if a = .arrival ∧ σ.arrival = some .guard then 1 else 0) + σ.emptySent
        + arrivalPending σ.arrival
      = σ'.emptySent + arrivalPending σ'.arrival := by
  cases a with
  | main =>
    obtain ⟨e1, -, e2, -⟩ := step_main_some hi h
    simp [e1, e2]
  | arrival =>
    obtain ⟨pc, pc', s', ha, hs, rfl⟩ := step_arrival_some h
    have hf := hi.emptyFlag
    rw [ha] at hf
    cases pc with
    | sleep =>
      simp [arrivalStep] at hs
      simp [ha, ← hs.1, arrivalPending]
    | guard =>
      simp [arrivalStep, Sensor.GetEmptyPlaceSensorOccupied, hf, arrivalFlag] at hs
      simp [ha, ← hs.1, arrivalPending]
      omega
    | set =>
      simp [arrivalStep] at hs
      simp [ha, ← hs.1, arrivalPending]
    | call hpc =>
      cases hpc <;>
        simp [arrivalStep, OnEmptyPlaceSensorChanged, Sensor.GetEmptyPlaceSensorOccupied,
          hf, arrivalFlag] at hs <;>
        simp [ha, ← hs.1, arrivalPending]
  | removal =>
    obtain ⟨pc, pc', s', ha, hs, rfl⟩ := step_removal_some h
    simp
  | worker i =>
    obtain ⟨w, hw, hp, rfl⟩ := step_worker_some h
    simp
  | handEmpty i =>
    obtain ⟨w, ha, hw, hp, rfl⟩ := step_handEmpty_some h
    simp [ha, arrivalPending]
  | handFull i =>
    obtain ⟨w, pc, pc', ha, hpc, hw, hp, rfl⟩ := step_handFull_some h
    simp

theorem removal_count_step {σ σ' : System} (hi : Inv σ) (a : Action)
    (h : step a σ = some σ') :
    (if a = .removal ∧ σ.removal = some .guard then 1 else 0) + σ.fullTaken
        + removalPending σ.removal + removalPrimed σ'.removal
      = σ'.fullTaken + removalPending σ'.removal + removalPrimed σ.removal := by
  cases a with
  | main =>
    obtain ⟨-, e1, -, e2⟩ := step_main_some hi h
    simp [e1]
    omega
  | arrival =>
    obtain ⟨pc, pc', s', ha, hs, rfl⟩ := step_arrival_some h
    simp
  | removal =>
    obtain ⟨pc, pc', s', ha, hs, rfl⟩ := step_removal_some h
    have hf := hi.fullFlag
    rw [ha] at hf
    cases pc with
    | sleep =>
      simp [removalStep] at hs
      simp [ha, ← hs.1, removalPending, removalPrimed]
    | guard =>
      simp [removalStep, Sensor.GetFullPlaceSensorOccupied, hf, removalFlag] at hs
      simp [ha, ← hs.1, removalPending, removalPrimed]
      omega
    | clear =>
      simp [removalStep] at hs
      simp [ha, ← hs.1, removalPending, removalPrimed]
    | prime hpc =>
      cases hpc <;>
        simp [removalStep, OnFullPlaceSensorChanged, Sensor.GetFullPlaceSensorOccupied,
          hf, removalFlag] at hs <;>
        simp [ha, ← hs.1, removalPending, removalPrimed]
    | call hpc =>
      cases hpc <;>
        simp [removalStep, OnFullPlaceSensorChanged, Sensor.GetFullPlaceSensorOccupied,
          hf, removalFlag] at hs <;>
        simp [ha, ← hs.1, removalPending, removalPrimed]
  | worker i =>
    obtain ⟨w, hw, hp, rfl⟩ := step_worker_some h
    simp
  | handEmpty i =>
    obtain ⟨w, ha, hw, hp, rfl⟩ := step_handEmpty_some h
    simp
  | handFull i =>
    obtain ⟨w, pc, pc', ha, hpc, hw, hp, rfl⟩ := step_handFull_some h
    rcases hpc with ⟨rfl, rfl⟩ | ⟨rfl, rfl⟩ <;> simp [ha, removalPending, removalPrimed]

theorem arrival_count_run :
    ∀ (as : List Action) {σ σ' : System}, Inv σ → runActions as σ = some σ' →
      arrivalIterations as σ + σ.emptySent + arrivalPending σ.arrival
        = σ'.emptySent + arrivalPending σ'.arrival
  | [], σ, σ', _, h => by
    simp [runActions] at h
    subst h
    simp [arrivalIterations]
  | a :: as, σ, σ', hi, h => by
    simp only [runActions] at h
    cases hs : step a σ with
    | none => simp [hs] at h
    | some σ₁ =>
      simp only [hs] at h
      have ih := arrival_count_run as (inv_step a hi hs) h
      have h1 := arrival_count_step hi a hs
      simp only [arrivalIterations, hs]
      omega

theorem removal_count_run :
    ∀ (as : List Action) {σ σ' : System}, Inv σ → runActions as σ = some σ' →
      removalIterations as σ + σ.fullTaken + removalPending σ.removal
          + removalPrimed σ'.removal
        = σ'.fullTaken + removalPending σ'.removal + removalPrimed σ.removal
  | [], σ, σ', _, h => by
    simp [runActions] at h
    subst h
    simp [removalIterations]
  | a :: as, σ, σ', hi, h => by
    simp only [runActions] at h
    cases hs : step a σ with
    | none => simp [hs] at h
    | some σ₁ =>
      simp only [hs] at h
      have ih := removal_count_run as (inv_step a hi hs) h
      have h1 := removal_count_step hi a hs
      simp only [removalIterations, hs]
      omega

theorem arrival_blocked_at_send {σ : System} (ha : σ.arrival = some (.call .comm)) :
    step .arrival σ = none := by
  simp [step, ha, arrivalStep, OnEmptyPlaceSensorChanged]

theorem handEmpty_enabled {σ : System} {i : Nat} {w : Worker}
    (ha : σ.arrival = some (.call .comm)) (hw : σ.workers[i]? = some w)
    (hp : w.pc = .recv) :
    step (.handEmpty i) σ
      = some { σ with arrival := some (.call .update),
                      workers := σ.workers.set i
                        { w with pc := .fill, received := w.received + 1 },
                      emptySent := σ.emptySent + 1 } := by
  simp [step, ha, hw, arrivalSend, OnEmptyPlaceSensorChanged, Worker.receive, hp]

theorem handFull_enabled_prime {σ : System} {i : Nat} {w : Worker}
    (ha : σ.removal = some (.prime .comm)) (hw : σ.workers[i]? = some w)
    (hp : w.pc = .send) :
    step (.handFull i) σ
      = some { σ with removal := some (.prime .update),
                      workers := σ.workers.set i
                        { w with pc := .recv, produced := w.produced + 1 },
                      fullTaken := σ.fullTaken + 1 } := by
  simp [step, ha, hw, removalRecv, OnFullPlaceSensorChanged, Worker.deliver, hp]

theorem handFull_enabled_call {σ : System} {i : Nat} {w : Worker}
    (ha : σ.removal = some (.call .comm)) (hw : σ.workers[i]? = some w)
    (hp : w.pc = .send) :
    step (.handFull i) σ
      = some { σ with removal := some (.call .update),
                      workers := σ.workers.set i
                        { w with pc := .recv, produced := w.produced + 1 },
                      fullTaken := σ.fullTaken + 1 } := by
  simp [step, ha, hw, removalRecv, OnFullPlaceSensorChanged, Worker.deliver, hp]

theorem removal_blocked_at_recv {σ : System}
    (ha : σ.removal = some (.prime .comm) ∨ σ.removal = some (.call .comm)) :
    step .removal σ = none := by
  rcases ha with ha | ha <;> simp [step, ha, removalStep, OnFullPlaceSensorChanged]

theorem arrivalAccess_stores {pc pc' : ArrivalPc} {s s' : Sensor}
    (h : arrivalStep pc s = some (pc', s')) :
    ∀ f, f ∉ (arrivalAccess pc).stores → s.sameField s' f := by
  intro f hf
  cases pc with
  | sleep => simp [arrivalStep] at h; obtain ⟨-, rfl⟩ := h; cases f <;> rfl
  | guard =>
    simp only [arrivalStep] at h
    split at h <;> (simp at h; obtain ⟨-, rfl⟩ := h; cases f <;> rfl)
  | set =>
    simp [arrivalStep, Sensor.SetEmptyPlaceSensorOccupied] at h
    obtain ⟨-, rfl⟩ := h
    cases f <;> simp [arrivalAccess, Sensor.accessSetEmpty, Sensor.sameField] at hf ⊢
  | call hpc =>
    cases hpc with
    | test =>
      cases hg : s.GetEmptyPlaceSensorOccupied <;>
        simp [arrivalStep, OnEmptyPlaceSensorChanged, hg] at h <;>
        (obtain ⟨-, rfl⟩ := h; cases f <;> rfl)
    | comm => simp [arrivalStep, OnEmptyPlaceSensorChanged] at h
    | update =>
      simp [arrivalStep, OnEmptyPlaceSensorChanged, Sensor.SetEmptyPlaceSensorOccupied] at h
      obtain ⟨-, rfl⟩ := h
      cases f <;>
        simp [arrivalAccess, accessOnEmpty, Sensor.accessSetEmpty, Sensor.sameField] at hf ⊢
    | ret =>
      simp [arrivalStep, OnEmptyPlaceSensorChanged] at h
      obtain ⟨-, rfl⟩ := h
      cases f <;> rfl

theorem removalAccess_stores {pc pc' : RemovalPc} {s s' : Sensor}
    (h : removalStep pc s = some (pc', s')) :
    ∀ f, f ∉ (removalAccess pc).stores → s.sameField s' f := by
  intro f hf
  cases pc with
  | sleep => simp [removalStep] at h; obtain ⟨-, rfl⟩ := h; cases f <;> rfl
  | guard =>
    simp only [removalStep] at h
    split at h <;> (simp at h; obtain ⟨-, rfl⟩ := h; cases f <;> rfl)
  | clear =>
    simp [removalStep, Sensor.SetFullPlaceSensorOccupied] at h
    obtain ⟨-, rfl⟩ := h
    cases f <;> simp [removalAccess, Sensor.accessSetFull, Sensor.sameField] at hf ⊢
  | prime hpc =>
    cases hpc with
    | test =>
      cases hg : s.GetFullPlaceSensorOccupied <;>
        simp [removalStep, OnFullPlaceSensorChanged, hg] at h <;>
        (obtain ⟨-, rfl⟩ := h; cases f <;> rfl)
    | comm => simp [removalStep, OnFullPlaceSensorChanged] at h
    | update =>
      simp [removalStep, OnFullPlaceSensorChanged, Sensor.SetFullPlaceSensorOccupied] at h
      obtain ⟨-, rfl⟩ := h
      cases f <;>
        simp [removalAccess, accessOnFull, Sensor.accessSetFull, Sensor.sameField] at hf ⊢
    | ret =>
      simp [removalStep, OnFullPlaceSensorChanged] at h
      obtain ⟨-, rfl⟩ := h
      cases f <;> rfl
  | call hpc =>
    cases hpc with
    | test =>
      cases hg : s.GetFullPlaceSensorOccupied <;>
        simp [removalStep, OnFullPlaceSensorChanged, hg] at h <;>
        (obtain ⟨-, rfl⟩ := h; cases f <;> rfl)
    | comm => simp [removalStep, OnFullPlaceSensorChanged] at h
    | update =>
      simp [removalStep, OnFullPlaceSensorChanged, Sensor.SetFullPlaceSensorOccupied] at h
      obtain ⟨-, rfl⟩ := h
      cases f <;>
        simp [removalAccess, accessOnFull, Sensor.accessSetFull, Sensor.sameField] at hf ⊢
    | ret =>
      simp [removalStep, OnFullPlaceSensorChanged] at h
      obtain ⟨-, rfl⟩ := h
      cases f <;> rfl

theorem arrivalAccess_loads (pc : ArrivalPc) (s₁ s₂ : Sensor)
    (h : (arrivalAccess pc).loads = []) :
    (arrivalStep pc s₁).map Prod.fst = (arrivalStep pc s₂).map Prod.fst := by
  cases pc with
  | sleep => simp [arrivalStep]
  | guard => simp [arrivalAccess, Sensor.accessGetEmpty, Access.copyReceiver] at h
  | set => simp [arrivalStep]
  | call hpc =>
    cases hpc with
    | test =>
      simp [arrivalAccess, accessOnEmpty, Sensor.accessGetEmpty, Access.copyReceiver] at h
    | comm => simp [arrivalStep, OnEmptyPlaceSensorChanged]
    | update => simp [arrivalStep, OnEmptyPlaceSensorChanged]
    | ret => simp [arrivalStep, OnEmptyPlaceSensorChanged]

theorem removalAccess_loads (pc : RemovalPc) (s₁ s₂ : Sensor)
    (h : (removalAccess pc).loads = []) :
    (removalStep pc s₁).map Prod.fst = (removalStep pc s₂).map Prod.fst := by
  cases pc with
  | sleep => simp [removalStep]
  | guard => simp [removalAccess, Sensor.accessGetFull, Access.copyReceiver] at h
  | clear => simp [removalStep]
  | prime hpc =>
    cases hpc with
    | test =>
      simp [removalAccess, accessOnFull, Sensor.accessGetFull, Access.copyReceiver] at h
    | comm => simp [removalStep, OnFullPlaceSensorChanged]
    | update => simp [removalStep, OnFullPlaceSensorChanged]
    | ret => simp [removalStep, OnFullPlaceSensorChanged]
  | call hpc =>
    cases hpc with
    | test =>
      simp [removalAccess, accessOnFull, Sensor.accessGetFull, Access.copyReceiver] at h
    | comm => simp [removalStep, OnFullPlaceSensorChanged]
    | update => simp [removalStep, OnFullPlaceSensorChanged]
    | ret => simp [removalStep, OnFullPlaceSensorChanged]

theorem cycleState_reachable : Reachable cycleState :=
  reachable_runActions Reachable.init cycleSchedule cycleState (by decide)

theorem sendState_reachable : Reachable sendState :=
  reachable_runActions Reachable.init sendSchedule sendState (by decide)

theorem arrivalAccess_other_flag (pc : ArrivalPc) :
    Field.fullPlaceOccupied ∉ (arrivalAccess pc).stores ∧
    Field.timers ∉ (arrivalAccess pc).stores ∧
    (Field.fullPlaceOccupied ∈ (arrivalAccess pc).loads ↔
      pc = .guard ∨ pc = .call .test) := by
  cases pc with
  | call hpc =>
    cases hpc <;>
      simp [arrivalAccess, accessOnEmpty, Sensor.accessGetEmpty, Sensor.accessSetEmpty,
        Access.copyReceiver, Access.nothing]
  | _ =>
    simp [arrivalAccess, Sensor.accessGetEmpty, Sensor.accessSetEmpty,
      Access.copyReceiver, Access.nothing]

theorem removalAccess_other_flag (pc : RemovalPc) :
    Field.emptyPlaceOccupied ∉ (removalAccess pc).stores ∧
    Field.timers ∉ (removalAccess pc).stores ∧
    (Field.emptyPlaceOccupied ∈ (removalAccess pc).loads ↔
      pc = .guard ∨ pc = .prime .test ∨ pc = .call .test) := by
  cases pc with
  | prime hpc =>
    cases hpc <;>
      simp [removalAccess, accessOnFull, Sensor.accessGetFull, Sensor.accessSetFull,
        Access.copyReceiver, Access.nothing]
  | call hpc =>
    cases hpc <;>
      simp [removalAccess, accessOnFull, Sensor.accessGetFull, Sensor.accessSetFull,
        Access.copyReceiver, Access.nothing]
  | _ =>
    simp [removalAccess, Sensor.accessGetFull, Sensor.accessSetFull,
      Access.copyReceiver, Access.nothing]

theorem runActions_snoc (as : List Action) (a : Action) (σ : System) :
    runActions (as ++ [a]) σ = (runActions as σ).bind (step a) := by
  induction as generalizing σ with
  | nil =>
    simp only [List.nil_append, runActions, Option.some_bind]
    cases step a σ <;> rfl
  | cons b as ih =>
    simp only [List.cons_append, runActions]
    cases step b σ with
    | none => rfl
    | some σ₁ => exact ih σ₁

theorem reachable_schedule {σ : System} (h : Reachable σ) :
    ∃ as, runActions as System.init = some σ := by
  induction h with
  | init => exact ⟨[], rfl⟩
  | step a _ hs ih =>
    obtain ⟨as, has⟩ := ih
    exact ⟨as ++ [a], by rw [runActions_snoc, has]; exact hs⟩

/-! ## Ownership of the flags and hand-off of every iteration -/

theorem guards_pass_and_frame {σ : System} (h : Reachable σ) :
    (σ.arrival = some .guard → σ.sensor.emptyPlaceOccupied = false) ∧
    (σ.removal = some .guard → σ.sensor.fullPlaceOccupied = true) ∧
    (σ.arrival = some (.call .test) → σ.sensor.emptyPlaceOccupied = true) ∧
    (σ.removal = some (.prime .test) ∨ σ.removal = some (.call .test) →
      σ.sensor.fullPlaceOccupied = false) ∧
    (∀ σ', step .arrival σ = some σ' →
      (σ.arrival = some .guard → σ'.arrival = some .set) ∧
      (σ.arrival = some (.call .test) → σ'.arrival = some (.call .comm))) ∧
    (∀ σ', step .removal σ = some σ' →
      (σ.removal = some .guard → σ'.removal = some .clear) ∧
      (σ.removal = some (.prime .test) → σ'.removal = some (.prime .comm)) ∧
      (σ.removal = some (.call .test) → σ'.removal = some (.call .comm))) ∧
    (∀ a σ', step a σ = some σ' →
      (a ≠ .arrival → σ'.sensor.emptyPlaceOccupied = σ.sensor.emptyPlaceOccupied) ∧
      (a ≠ .removal → σ'.sensor.fullPlaceOccupied = σ.sensor.fullPlaceOccupied)) ∧
    (∀ pc s b, arrivalStep pc { s with fullPlaceOccupied := b }
      = (arrivalStep pc s).map (fun r => (r.1, { r.2 with fullPlaceOccupied := b }))) ∧
    (∀ pc s b, removalStep pc { s with emptyPlaceOccupied := b }
      = (removalStep pc s).map (fun r => (r.1, { r.2 with emptyPlaceOccupied := b }))) := by
  have hi := reachable_inv h
  have h1 := hi.emptyFlag
  have h2 := hi.fullFlag
  refine ⟨?_, ?_, ?_, ?_, ?_, ?_, fun a σ' hs => step_frame hi a hs,
    arrivalStep_ignores_full, removalStep_ignores_empty⟩
  · intro ha
    simpa [ha, arrivalFlag] using h1
  · intro hr
    simpa [hr, removalFlag] using h2
  · intro ha
    simpa [ha, arrivalFlag] using h1
  · rintro (hr | hr) <;> simpa [hr, removalFlag] using h2
  · intro σ' hs
    obtain ⟨pc, pc', s', ha, hst, rfl⟩ := step_arrival_some hs
    rw [ha] at h1
    constructor
    · intro hg
      rw [ha] at hg
      cases hg
      simp [arrivalStep, Sensor.GetEmptyPlaceSensorOccupied, h1, arrivalFlag] at hst
      simp [hst.1]
    · intro hg
      rw [ha] at hg
      cases hg
      simp [arrivalStep, OnEmptyPlaceSensorChanged, Sensor.GetEmptyPlaceSensorOccupied,
        h1, arrivalFlag] at hst
      simp [hst.1]
  · intro σ' hs
    obtain ⟨pc, pc', s', ha, hst, rfl⟩ := step_removal_some hs
    rw [ha] at h2
    refine ⟨?_, ?_, ?_⟩
    · intro hg
      rw [ha] at hg
      cases hg
      simp [removalStep, Sensor.GetFullPlaceSensorOccupied, h2, removalFlag] at hst
      simp [hst.1]
    · intro hg
      rw [ha] at hg
      cases hg
      simp [removalStep, OnFullPlaceSensorChanged, Sensor.GetFullPlaceSensorOccupied,
        h2, removalFlag] at hst
      simp [hst.1]
    · intro hg
      rw [ha] at hg
      cases hg
      simp [removalStep, OnFullPlaceSensorChanged, Sensor.GetFullPlaceSensorOccupied,
        h2, removalFlag] at hst
      simp [hst.1]

/-- C10 as stated fails in its first part: an occupancy flag is not read by
one driver only.  The getters have the value receiver `(s Sensor)`, so each
getter call copies the whole sensor.  In the reachable state where the arrival
driver stands at its guard (line 132) and the removal driver at the guard of
the priming handler call (line 86), the next step of the arrival driver loads
the full-place flag, which the removal driver stores on lines 90 and 150, and
the next step of the removal driver loads the empty-place flag, which the
arrival driver stores on lines 81 and 133. -/
theorem occupancy_flags_loaded_by_both_drivers :
    Reachable guardState ∧
    guardState.arrival = some .guard ∧
    guardState.removal = some (.prime .test) ∧
    Field.fullPlaceOccupied ∈ (arrivalAccess .guard).loads ∧
    Field.fullPlaceOccupied ∈ (removalAccess (.prime .test)).loads ∧
    Field.fullPlaceOccupied ∈ (removalAccess .clear).stores ∧
    Field.emptyPlaceOccupied ∈ (removalAccess (.prime .test)).loads ∧
    Field.emptyPlaceOccupied ∈ (arrivalAccess .guard).loads ∧
    Field.emptyPlaceOccupied ∈ (arrivalAccess .set).stores ∧
    ¬ (∀ f : Field, f ≠ .timers →
        ¬ ((∃ pc, f ∈ (arrivalAccess pc).loads ++ (arrivalAccess pc).stores) ∧
           (∃ pc, f ∈ (removalAccess pc).loads ++ (removalAccess pc).stores))) := by
  refine ⟨guardState_reachable, rfl, rfl, by decide, by decide, by decide, by decide,
    by decide, by decide, ?_⟩
  intro hall
  exact hall .fullPlaceOccupied (by decide)
    ⟨⟨.guard, by decide⟩, ⟨.prime .test, by decide⟩⟩

/-- C10 amended: in the program wired in `main` each occupancy flag is written
by one driver only and used by one driver only.  No statement of the arrival
driver stores the full-place flag and no statement of the removal driver
stores the empty-place flag, a step changes no field its statement does not
store, only a step of the arrival driver changes the empty-place flag and only
a step of the removal driver changes the full-place flag; the other flag is
loaded only by the copy a getter call makes, and the local steps of a driver
do not depend on it.  In every reachable state the empty-place flag is false
when the arrival driver evaluates its guard and true when it evaluates the
guard of `OnEmptyPlaceSensorChanged`; the full-place flag is true when the
removal driver evaluates its loop guard and false when it evaluates the guard
of `OnFullPlaceSensorChanged`; so the driver guards always lead to the flag
write and the handler guards always lead to the channel operation, and the
no-op branches are never taken.  Every iteration performs a hand-off: at the
channel operation a driver has no local step and goes on only by the hand-off
with a machine, which is enabled whenever a machine stands at the matching
operation and counts one token; every reachable state is the end of a
schedule from the start, and along every such schedule the iterations the arrival driver has begun equal the sends completed on the
empty-bottle channel plus the one iteration still on its way to the send, and
the priming call plus the iterations the removal driver has begun equal the
receives completed from the full-bottle channel plus the one still on its way
to the receive. -/
theorem flags_owned_and_guards_pass {σ : System} (h : Reachable σ) :
    (σ.arrival = some .guard → σ.sensor.emptyPlaceOccupied = false) ∧
    (σ.removal = some .guard → σ.sensor.fullPlaceOccupied = true) ∧
    (σ.arrival = some (.call .test) → σ.sensor.emptyPlaceOccupied = true) ∧
    (σ.removal = some (.prime .test) ∨ σ.removal = some (.call .test) →
      σ.sensor.fullPlaceOccupied = false) ∧
    (∀ σ', step .arrival σ = some σ' →
      (σ.arrival = some .guard → σ'.arrival = some .set) ∧
      (σ.arrival = some (.call .test) → σ'.arrival = some (.call .comm))) ∧
    (∀ σ', step .removal σ = some σ' →
      (σ.removal = some .guard → σ'.removal = some .clear) ∧
      (σ.removal = some (.prime .test) → σ'.removal = some (.prime .comm)) ∧
      (σ.removal = some (.call .test) → σ'.removal = some (.call .comm))) ∧
    (∀ a σ', step a σ = some σ' →
      (a ≠ .arrival → σ'.sensor.emptyPlaceOccupied = σ.sensor.emptyPlaceOccupied) ∧
      (a ≠ .removal → σ'.sensor.fullPlaceOccupied = σ.sensor.fullPlaceOccupied)) ∧
    (∀ pc s b, arrivalStep pc { s with fullPlaceOccupied := b }
      = (arrivalStep pc s).map (fun r => (r.1, { r.2 with fullPlaceOccupied := b }))) ∧
    (∀ pc s b, removalStep pc { s with emptyPlaceOccupied := b }
      = (removalStep pc s).map (fun r => (r.1, { r.2 with emptyPlaceOccupied := b }))) ∧
    (∀ pc, Field.fullPlaceOccupied ∉ (arrivalAccess pc).stores ∧
      Field.timers ∉ (arrivalAccess pc).stores ∧
      (Field.fullPlaceOccupied ∈ (arrivalAccess pc).loads ↔
        pc = .guard ∨ pc = .call .test)) ∧
    (∀ pc, Field.emptyPlaceOccupied ∉ (removalAccess pc).stores ∧
      Field.timers ∉ (removalAccess pc).stores ∧
      (Field.emptyPlaceOccupied ∈ (removalAccess pc).loads ↔
        pc = .guard ∨ pc = .prime .test ∨ pc = .call .test)) ∧
    (∀ pc pc' s s', arrivalStep pc s = some (pc', s') →
      ∀ f, f ∉ (arrivalAccess pc).stores → s.sameField s' f) ∧
    (∀ pc pc' s s', removalStep pc s = some (pc', s') →
      ∀ f, f ∉ (removalAccess pc).stores → s.sameField s' f) ∧
    (σ.arrival = some (.call .comm) →
      step .arrival σ = none ∧
      ∀ i w, σ.workers[i]? = some w → w.pc = .recv →
        step (.handEmpty i) σ
          = some { σ with arrival := some (.call .update),
                          workers := σ.workers.set i
                            { w with pc := .fill, received := w.received + 1 },
                          emptySent := σ.emptySent + 1 }) ∧
    (σ.removal = some (.prime .comm) →
      step .removal σ = none ∧
      ∀ i w, σ.workers[i]? = some w → w.pc = .send →
        step (.handFull i) σ
          = some { σ with removal := some (.prime .update),
                          workers := σ.workers.set i
                            { w with pc := .recv, produced := w.produced + 1 },
                          fullTaken := σ.fullTaken + 1 }) ∧
    (σ.removal = some (.call .comm) →
      step .removal σ = none ∧
      ∀ i w, σ.workers[i]? = some w → w.pc = .send →
        step (.handFull i) σ
          = some { σ with removal := some (.call .update),
                          workers := σ.workers.set i
                            { w with pc := .recv, produced := w.produced + 1 },
                          fullTaken := σ.fullTaken + 1 }) ∧
    (∃ as, runActions as System.init = some σ) ∧
    (∀ as, runActions as System.init = some σ →
      arrivalIterations as System.init = σ.emptySent + arrivalPending σ.arrival ∧
      removalPrimed σ.removal + removalIterations as System.init
        = σ.fullTaken + removalPending σ.removal) := by
  obtain ⟨g1, g2, g3, g4, g5, g6, g7, g8, g9⟩ := guards_pass_and_frame h
  refine ⟨g1, g2, g3, g4, g5, g6, g7, g8, g9, arrivalAccess_other_flag,
    removalAccess_other_flag, fun _ _ _ _ hs => arrivalAccess_stores hs,
    fun _ _ _ _ hs => removalAccess_stores hs, ?_, ?_, ?_, reachable_schedule h, ?_⟩
  · intro ha
    exact ⟨arrival_blocked_at_send ha, fun i w hw hp => handEmpty_enabled ha hw hp⟩
  · intro ha
    exact ⟨removal_blocked_at_recv (Or.inl ha),
      fun i w hw hp => handFull_enabled_prime ha hw hp⟩
  · intro ha
    exact ⟨removal_blocked_at_recv (Or.inr ha),
      fun i w hw hp => handFull_enabled_call ha hw hp⟩
  · intro as hrun
    have ha := arrival_count_run as inv_init hrun
    have hr := removal_count_run as inv_init hrun
    have e1 : System.init.emptySent = 0 := rfl
    have e2 : arrivalPending System.init.arrival = 0 := rfl
    have e3 : System.init.fullTaken = 0 := rfl
    have e4 : removalPending System.init.removal = 0 := rfl
    have e5 : removalPrimed System.init.removal = 0 := rfl
    constructor <;> omega

/-- Witness of C10 amended.  After one full cycle both drivers stand at their
guards: the empty-place flag is false, the full-place flag is true, and the
one iteration the arrival driver began is the one send completed.  In the
state where the arrival driver stands at the send of its first iteration, the
hand-off with machine 1 is enabled and counts one token. -/
theorem flags_owned_and_guards_pass_witness :
    Reachable cycleState ∧ cycleState.sensor.emptyPlaceOccupied = false ∧
    cycleState.sensor.fullPlaceOccupied = true ∧
    arrivalIterations cycleSchedule System.init = 1 ∧
    1 + removalIterations cycleSchedule System.init = 1 ∧
    Reachable sendState ∧ step .arrival sendState = none ∧
    step (.handEmpty 1) sendState = some sampleState :=
  ⟨cycleState_reachable,
   (flags_owned_and_guards_pass cycleState_reachable).1 rfl,
   (flags_owned_and_guards_pass cycleState_reachable).2.1 rfl,
   ((flags_owned_and_guards_pass cycleState_reachable).2.2.2.2.2.2.2.2.2.2.2.2.2.2.2.2.2
      cycleSchedule (by decide)).1,
   ((flags_owned_and_guards_pass cycleState_reachable).2.2.2.2.2.2.2.2.2.2.2.2.2.2.2.2.2
      cycleSchedule (by decide)).2,
   sendState_reachable,
   ((flags_owned_and_guards_pass sendState_reachable).2.2.2.2.2.2.2.2.2.2.2.2.2.1 rfl).1,
   ((flags_owned_and_guards_pass sendState_reachable).2.2.2.2.2.2.2.2.2.2.2.2.2.1 rfl).2
      1 ⟨.recv, 0, 0⟩ rfl rfl⟩

/-! ## Scenario C -/

theorem onFull_returned_flag (s : Sensor) (offers : Nat)
    (h : (invoke OnFullPlaceSensorChanged s offers).status = .returned) :
    (invoke OnFullPlaceSensorChanged s offers).sensor.fullPlaceOccupied = true := by
  cases hf : s.fullPlaceOccupied with
  | true =>
    simp [invoke, runHandler, OnFullPlaceSensorChanged,
      Sensor.GetFullPlaceSensorOccupied, hf]
  | false =>
    cases offers with
    | zero =>
      simp [invoke, runHandler, OnFullPlaceSensorChanged,
        Sensor.GetFullPlaceSensorOccupied, hf] at h
    | succ k =>
      simp [invoke, runHandler, OnFullPlaceSensorChanged,
        Sensor.GetFullPlaceSensorOccupied, Sensor.SetFullPlaceSensorOccupied, hf]

/-- C9 as stated fails: from the sensor `main` starts with, a first call of
`OnFullPlaceSensorChanged` that is offered one token returns, and the second
call, with no token offered, is not blocked: it returns without a channel
operation.  So it is not true that for every state the second call blocks. -/
theorem second_onFull_call_does_not_block :
    (invoke OnFullPlaceSensorChanged ⟨false, false, []⟩ 1).status = .returned ∧
    (invoke OnFullPlaceSensorChanged
      (invoke OnFullPlaceSensorChanged ⟨false, false, []⟩ 1).sensor 0).status = .returned ∧
    (invoke OnFullPlaceSensorChanged
      (invoke OnFullPlaceSensorChanged ⟨false, false, []⟩ 1).sensor 0).ops = [] ∧
    ¬ (∀ (s : Sensor) (offers : Nat),
        (invoke OnFullPlaceSensorChanged s offers).status = .returned →
        (invoke OnFullPlaceSensorChanged
          (invoke OnFullPlaceSensorChanged s offers).sensor 0).status = .blocked) := by
  refine ⟨by decide, by decide, by decide, ?_⟩
  intro hall
  have hc := hall ⟨false, false, []⟩ 1 (by decide)
  revert hc
  decide

/-- C9 amended: when `OnFullPlaceSensorChanged` is called twice in a row, the
first call having completed and nothing else having changed the sensor, the
full-place flag is true after the first call, and the second call returns at
once whatever is offered on the full-bottle channel: it attempts no receive,
takes no token, does not block, and leaves the sensor unchanged. -/
theorem second_onFull_call_is_noop (s : Sensor) (offers n : Nat)
    (h : (invoke OnFullPlaceSensorChanged s offers).status = .returned) :
    (invoke OnFullPlaceSensorChanged s offers).sensor.fullPlaceOccupied = true ∧
    invoke OnFullPlaceSensorChanged (invoke OnFullPlaceSensorChanged s offers).sensor n
      = ⟨.returned, (invoke OnFullPlaceSensorChanged s offers).sensor,
          [(none, .ret, (invoke OnFullPlaceSensorChanged s offers).sensor)], n⟩ ∧
    (invoke OnFullPlaceSensorChanged
      (invoke OnFullPlaceSensorChanged s offers).sensor n).ops = [] := by
  have hf := onFull_returned_flag s offers h
  generalize (invoke OnFullPlaceSensorChanged s offers).sensor = s₁ at hf ⊢
  simp [invoke, runHandler, OnFullPlaceSensorChanged,
    Sensor.GetFullPlaceSensorOccupied, hf, Outcome.ops]

/-- Witness of C9 amended at the sensor `main` starts with: the first call
takes the one token offered, the second call returns with the flag true. -/
theorem second_onFull_call_is_noop_witness :
    (invoke OnFullPlaceSensorChanged ⟨false, false, []⟩ 1).status = .returned ∧
    (invoke OnFullPlaceSensorChanged
      (invoke OnFullPlaceSensorChanged ⟨false, false, []⟩ 1).sensor 0).ops = [] :=
  ⟨by decide, (second_onFull_call_is_noop ⟨false, false, []⟩ 1 0 (by decide)).2.2⟩


/-! ## Timer handles -/

/-- C6 fails on the code: after two `StartTimer` calls (handles 0 and 1) and
the expiry of the first timer, the registry has one entry, so the third
`StartTimer` call returns `len(s.timers) = 1`, the handle of the second timer,
which is live (started, neither fired nor cancelled) at that moment; the new
entry replaces the entry of the second timer in the registry. -/
theorem startTimer_returns_live_handle :
    (StartTimer TimerWorld.init 1 0).1 = 0 ∧
    (StartTimer (StartTimer TimerWorld.init 1 0).2 10 1).1 = 1 ∧
    runTimers reuseEvents TimerWorld.init = some reuseWorld ∧
    reuseWorld.gos[1]? = some ⟨1, 1, 10, false, true⟩ ∧
    (StartTimer reuseWorld 10 2).1 = 1 ∧
    (∃ g ∈ reuseWorld.gos, g.live = true ∧ g.id = (StartTimer reuseWorld 10 2).1) ∧
    (StartTimer reuseWorld 10 2).2.sensor.timers = [(1, ⟨2, 10, 2⟩)] := by
  refine ⟨by decide, by decide, by decide, by decide, by decide, ?_, by decide⟩
  exact ⟨⟨1, 1, 10, false, true⟩, by decide, by decide, by decide⟩

/-- C7 fails on the code: the second timer is started at time 0 with delay 10
and handle 1.  After the first timer has fired, a third `StartTimer` call
returns handle 1 again and replaces the registry entry, so `KillTimer(1)`,
called at time 1, strictly before the delay of the second timer elapses,
cancels the context of the third timer and leaves the second timer
uncancelled; at time 10 the callback of the second timer (callback 1) is
executed. -/
theorem killTimer_misses_started_timer :
    runTimers reuseEvents TimerWorld.init = some reuseWorld ∧
    reuseWorld.now = 1 ∧
    reuseWorld.gos[1]? = some ⟨1, 1, 10, false, true⟩ ∧
    (KillTimer (StartTimer reuseWorld 10 2).2 1).gos
      = [⟨0, 0, 1, false, false⟩, ⟨1, 1, 10, false, true⟩, ⟨1, 2, 11, true, true⟩] ∧
    (runTimers killEvents reuseWorld).map TimerWorld.ran = some [0, 1] ∧
    (runTimers (reuseEvents ++ killEvents) TimerWorld.init).map TimerWorld.ran
      = some [0, 1] := by
  refine ⟨by decide, by decide, by decide, by decide, by decide, by decide⟩

/-- C8 fails on the code for a stale handle: handle 0 was returned for the
first timer, which has fired.  The second `StartTimer` call returned
`len(s.timers) = 0` again, so `KillTimer(0)` finds the entry of the second
timer, which is live, and cancels it: the world changes, the goroutine of the
second timer can take its `ctx.Done()` branch, and its callback (callback 1),
which runs at time 6 when `KillTimer(0)` is not called, is then never run. -/
theorem killTimer_stale_handle_cancels_live_timer :
    runTimers staleEvents TimerWorld.init = some staleWorld ∧
    staleWorld.gos[0]? = some ⟨0, 0, 1, false, false⟩ ∧
    staleWorld.gos[1]? = some ⟨0, 1, 6, false, true⟩ ∧
    KillTimer staleWorld 0 ≠ staleWorld ∧
    (KillTimer staleWorld 0).gos[1]? = some ⟨0, 1, 6, true, true⟩ ∧
    (runTimers [.tick, .tick, .tick, .tick, .tick, .fire 1] staleWorld).map TimerWorld.ran
      = some [0, 1] ∧
    (runTimers [.kill 0, .stop 1, .tick, .tick, .tick, .tick, .tick]
      staleWorld).map TimerWorld.ran = some [0] ∧
    runTimers [.kill 0, .stop 1, .tick, .tick, .tick, .tick, .tick, .fire 1]
      staleWorld = none := by
  refine ⟨by decide, by decide, by decide, by decide, by decide, by decide, by decide,
    by decide⟩


/-! ## Timer registry: handles that are not registered -/

theorem ids_set :
    ∀ (l : List TimerGo) (k : Nat) (g g' : TimerGo), l[k]? = some g → g'.id = g.id →
      (l.set k g').map TimerGo.id = l.map TimerGo.id
  | [], k, g, g', h, _ => by simp at h
  | x :: l, 0, g, g', h, hid => by
    simp at h
    subst h
    simp [hid]
  | x :: l, k + 1, g, g', h, hid => by
    simp at h
    have ih := ids_set l k g g' h hid
    simp only [List.set_cons_succ, List.map_cons, ih]

theorem ids_cancelCtx (gos : List TimerGo) (k : Nat) :
    (cancelCtx gos k).map TimerGo.id = gos.map TimerGo.id := by
  unfold cancelCtx
  cases h : gos[k]? with
  | none => rfl
  | some g => exact ids_set gos k g _ h rfl

theorem mem_mapDelete {m : List (TimerID × Timer)} {id : TimerID} {e : TimerID × Timer}
    (h : e ∈ mapDelete m id) : e ∈ m := by
  unfold mapDelete at h
  exact (List.mem_filter.mp h).1

/-- A handle that is not in the registry: `KillTimer` changes nothing. -/
theorem killTimer_unregistered (w : TimerWorld) (id : TimerID)
    (h : w.sensor.timers.lookup id = none) : KillTimer w id = w := by
  simp [KillTimer, h]

theorem registry_keys_step {w₀ w₁ : TimerWorld} (e : TimerEvent)
    (ih : ∀ e ∈ w₀.sensor.timers, e.1 ∈ w₀.gos.map TimerGo.id)
    (hs : timerStep e w₀ = some w₁) :
    ∀ e ∈ w₁.sensor.timers, e.1 ∈ w₁.gos.map TimerGo.id := by
  cases e with
  | start d cb =>
    simp only [timerStep, StartTimer, Option.some.injEq] at hs
    subst hs
    intro e he
    simp only [mapStore, List.mem_append, List.mem_singleton] at he
    simp only [List.map_append, List.mem_append, List.map_cons, List.map_nil,
      List.mem_singleton]
    rcases he with he | rfl
    · exact Or.inl (ih e (mem_mapDelete he))
    · exact Or.inr rfl
  | kill id =>
    simp only [timerStep, Option.some.injEq] at hs
    subst hs
    unfold KillTimer
    cases hl : List.lookup id w₀.sensor.timers with
    | none => exact ih
    | some t =>
      intro e he
      simp only [ids_cancelCtx]
      exact ih e he
  | tick =>
    simp only [timerStep, tick] at hs
    split at hs
    · simp at hs
    · simp only [Option.some.injEq] at hs
      subst hs
      exact ih
  | fire k =>
    simp only [timerStep, expire] at hs
    cases hg : w₀.gos[k]? with
    | none => simp [hg] at hs
    | some g =>
      simp only [hg] at hs
      split at hs
      · simp only [Option.some.injEq] at hs
        subst hs
        intro e he
        have hids := ids_set w₀.gos k g { g with waiting := false } hg rfl
        show e.1 ∈ (w₀.gos.set k { g with waiting := false }).map TimerGo.id
        rw [hids]
        exact ih e (mem_mapDelete he)
      · simp at hs
  | stop k =>
    simp only [timerStep, observeCancel] at hs
    cases hg : w₀.gos[k]? with
    | none => simp [hg] at hs
    | some g =>
      simp only [hg] at hs
      split at hs
      · simp only [Option.some.injEq] at hs
        subst hs
        intro e he
        have hids := ids_set w₀.gos k g { g with waiting := false } hg rfl
        show e.1 ∈ (w₀.gos.set k { g with waiting := false }).map TimerGo.id
        rw [hids]
        exact ih e (mem_mapDelete he)
      · simp at hs

/-- In every reachable world the keys of the registry are handles returned by
`StartTimer`. -/
theorem registry_keys_issued {w : TimerWorld} (h : TimerReachable w) :
    ∀ e ∈ w.sensor.timers, e.1 ∈ w.gos.map TimerGo.id := by
  induction h with
  | init => simp [TimerWorld.init]
  | step e _ hs ih => exact registry_keys_step e ih hs

/-- A handle that no `StartTimer` call has returned: in every reachable world
`KillTimer` with it changes nothing (flags, registry, contexts, goroutines,
clock, executed callbacks). -/
theorem killTimer_unknown_handle {w : TimerWorld} (h : TimerReachable w) (id : TimerID)
    (hid : id ∉ w.gos.map TimerGo.id) : KillTimer w id = w := by
  apply killTimer_unregistered
  rw [List.lookup_eq_none_iff]
  intro p hp
  have hk := registry_keys_issued h p hp
  simp only [bne_iff_ne, ne_eq]
  intro he
  exact hid (he ▸ hk)


/-- A timer whose context is cancelled while its delay has not elapsed cannot
take its `time.After` branch, and the clock does not move on before the
goroutine has taken its `ctx.Done()` branch, which is enabled. -/
theorem cancelled_timer_cannot_fire (w : TimerWorld) (k : Nat) (g : TimerGo)
    (hk : w.gos[k]? = some g) (hw : g.waiting = true) (hc : g.cancelled = true)
    (hd : w.now < g.deadline) :
    timerStep (.fire k) w = none ∧ timerStep .tick w = none ∧
    (timerStep (.stop k) w).isSome = true := by
  refine ⟨?_, ?_, ?_⟩
  · simp [timerStep, expire, hk, hw, Nat.not_le.mpr hd]
  · have hmem : g ∈ w.gos := List.getElem?_mem hk
    have hany : w.gos.any (fun g => g.ready w.now) = true :=
      List.any_eq_true.mpr ⟨g, hmem, by simp [TimerGo.ready, hw, hc]⟩
    simp [timerStep, tick, hany]
  · simp [timerStep, observeCancel, hk, hw, hc]

theorem silenced_set {w : TimerWorld} {k j : Nat} {g g' : TimerGo} {now : Nat}
    (hs : Silenced w k) (hj : w.gos[j]? = some g) (hnow : now = w.now)
    (hd : g'.deadline = g.deadline)
    (hkeep : g'.waiting = false ∨ (g'.waiting = g.waiting ∧ (g.cancelled = true →
      g'.cancelled = true))) :
    ∃ g₁, (w.gos.set j g')[k]? = some g₁ ∧
      (g₁.waiting = false ∨ (g₁.cancelled = true ∧ now < g₁.deadline)) := by
  obtain ⟨g₀, hk, hg⟩ := hs
  by_cases hjk : j = k
  · subst hjk
    have hlt := (List.getElem?_eq_some.mp hj).1
    rw [hk] at hj
    cases hj
    refine ⟨g', List.getElem?_set_self hlt, ?_⟩
    rcases hkeep with hk' | ⟨hw', hc'⟩
    · exact Or.inl hk'
    · rcases hg with hg | ⟨hc, hlt'⟩
      · exact Or.inl (hw'.trans hg)
      · exact Or.inr ⟨hc' hc, by omega⟩
  · refine ⟨g₀, ?_, ?_⟩
    · rw [List.getElem?_set_ne hjk]
      exact hk
    · rcases hg with hg | ⟨hc, hlt'⟩
      · exact Or.inl hg
      · exact Or.inr ⟨hc, by omega⟩

theorem silenced_step {w w' : TimerWorld} {k : Nat} (e : TimerEvent)
    (hs : Silenced w k) (h : timerStep e w = some w') :
    Silenced w' k ∧ e ≠ .fire k := by
  cases e with
  | start d cb =>
    simp only [timerStep, StartTimer, Option.some.injEq] at h
    subst h
    obtain ⟨g, hk, hg⟩ := hs
    refine ⟨⟨g, ?_, hg⟩, by simp⟩
    have hlt := (List.getElem?_eq_some.mp hk).1
    show (w.gos ++ _)[k]? = some g
    rw [List.getElem?_append_left hlt]
    exact hk
  | kill id =>
    simp only [timerStep, Option.some.injEq] at h
    subst h
    refine ⟨?_, by simp⟩
    unfold KillTimer
    cases hl : List.lookup id w.sensor.timers with
    | none => exact hs
    | some t =>
      show Silenced { w with gos := cancelCtx w.gos t.cancel } k
      unfold cancelCtx
      cases hj : w.gos[t.cancel]? with
      | none => exact hs
      | some g =>
        exact silenced_set hs hj rfl rfl (Or.inr ⟨rfl, fun _ => rfl⟩)
  | tick =>
    simp only [timerStep, tick] at h
    split at h
    · simp at h
    · rename_i hany
      simp only [Option.some.injEq] at h
      subst h
      refine ⟨?_, by simp⟩
      obtain ⟨g, hk, hg⟩ := hs
      refine ⟨g, hk, ?_⟩
      rcases hg with hg | ⟨hc, -⟩
      · exact Or.inl hg
      · left
        cases hw : g.waiting with
        | false => rfl
        | true =>
          exfalso
          apply hany
          exact List.any_eq_true.mpr
            ⟨g, List.getElem?_mem hk, by simp [TimerGo.ready, hw, hc]⟩
  | fire j =>
    simp only [timerStep, expire] at h
    cases hj : w.gos[j]? with
    | none => simp [hj] at h
    | some g =>
      simp only [hj] at h
      split at h
      · rename_i hen
        simp only [Bool.and_eq_true, decide_eq_true_eq] at hen
        simp only [Option.some.injEq] at h
        subst h
        have hne : j ≠ k := by
          rintro rfl
          obtain ⟨g₀, hk, hg⟩ := hs
          rw [hk] at hj
          cases hj
          rcases hg with hg | ⟨-, hlt⟩
          · rw [hen.1] at hg
            exact Bool.noConfusion hg
          · omega
        exact ⟨silenced_set hs hj rfl rfl (Or.inl rfl), by simpa using hne⟩
      · simp at h
  | stop j =>
    simp only [timerStep, observeCancel] at h
    cases hj : w.gos[j]? with
    | none => simp [hj] at h
    | some g =>
      simp only [hj] at h
      split at h
      · simp only [Option.some.injEq] at h
        subst h
        exact ⟨silenced_set hs hj rfl rfl (Or.inl rfl), by simp⟩
      · simp at h

/-- A timer whose context is cancelled strictly before its delay elapses never
runs its callback: no run from there contains the `time.After` branch of its
goroutine. -/
theorem silenced_timer_never_fires {k : Nat} :
    ∀ (es : List TimerEvent) {w w' : TimerWorld}, Silenced w k →
      runTimers es w = some w' → TimerEvent.fire k ∉ es
  | [], _, _, _, _ => by simp
  | e :: es, w, w', hs, h => by
    simp only [runTimers] at h
    cases hst : timerStep e w with
    | none => simp [hst] at h
    | some w₁ =>
      simp only [hst] at h
      obtain ⟨hs₁, hne⟩ := silenced_step e hs hst
      have ih := silenced_timer_never_fires es hs₁ h
      simp only [List.mem_cons, not_or]
      exact ⟨fun he => hne he.symm, ih⟩

/-- A `KillTimer` call that finds the entry of goroutine `k` while its delay
has not elapsed silences it. -/
theorem killTimer_silences {w : TimerWorld} {id : TimerID} {t : Timer} {g : TimerGo}
    (hl : w.sensor.timers.lookup id = some t) (hg : w.gos[t.cancel]? = some g)
    (hd : w.now < g.deadline) : Silenced (KillTimer w id) t.cancel := by
  have hlt := (List.getElem?_eq_some.mp hg).1
  have hw : KillTimer w id
      = { w with gos := w.gos.set t.cancel { g with cancelled := true } } := by
    simp only [KillTimer, hl, cancelCtx, hg]
  rw [hw]
  exact ⟨{ g with cancelled := true }, List.getElem?_set_self hlt, Or.inr ⟨rfl, hd⟩⟩

end BottleSimulator
